import Mathlib

/-!
Verification of the cmark-translate translation pipeline.

The Rust sources under `src/` are shallowly embedded here:
* `deepl.rs` — ignore-tag wrapping (`add_ignore_tags` / `remove_ignore_tags`),
  the free-plan API-key test and configuration record;
* `trans.rs` — `translate_cmark`, `translate_toml`, `translate_cmark_file`
  and `api_availability_check`, with the network boundary modelled as an
  oracle (`Provider`) and the performed effects recorded as an event trace;
* the CommonMark ↔ XML conversion core (`cmark_xml.rs`) is not part of the
  sources; it is modelled from the specification.

Strings are processed as `List Char`; `String` appears at the boundaries.
-/

namespace CmarkTranslate

/-- `startsL pat s` : `pat` is a prefix of `s` (case-sensitive). -/
def startsL : List Char → List Char → Bool
  | [], _ => true
  | _ :: _, [] => false
  | p :: ps, c :: cs => if p = c then startsL ps cs else false

/-- `occursIn pat s` : `pat` occurs as a contiguous substring of `s`. -/
def occursIn (pat : List Char) : List Char → Bool
  | [] => startsL pat []
  | c :: cs => startsL pat (c :: cs) || occursIn pat cs

/-- Case-insensitive prefix test, mirroring the `(?i)` regexes of `deepl.rs`. -/
def ciStartsL : List Char → List Char → Bool
  | [], _ => true
  | _ :: _, [] => false
  | p :: ps, c :: cs => if p.toLower = c.toLower then ciStartsL ps cs else false

/-- The opening marker `<ignore-tag>` inserted by `Deepl::add_ignore_tags`. -/
def igOpen : List Char :=
  '<' :: 'i' :: 'g' :: 'n' :: 'o' :: 'r' :: 'e' :: '-' :: 't' :: 'a' :: 'g' :: '>' :: []

/-- The closing marker `</ignore-tag>`. -/
def igClose : List Char :=
  '<' :: '/' :: 'i' :: 'g' :: 'n' :: 'o' :: 'r' :: 'e' :: '-' :: 't' :: 'a' :: 'g' :: '>' :: []

/-- One pass of `re.replace_all` for the case-insensitive literal `w`:
every leftmost, non-overlapping occurrence of `w` is wrapped in the marker
pair, exactly as the closure in `deepl.rs` lines 188-192 wraps `&caps[0]`.
The fuel is the length of the scanned list. -/
def ciWrapGo (w : List Char) : Nat → List Char → List Char
  | 0, s => s
  | _ + 1, [] => []
  | n + 1, c :: cs =>
    if ciStartsL w (c :: cs) then
      igOpen ++ (c :: cs).take w.length ++ igClose ++ ciWrapGo w n ((c :: cs).drop w.length)
    else
      c :: ciWrapGo w n cs

/-- Wrap all case-insensitive occurrences of the literal phrase `w`.
(The Rust code interpolates the phrase into a regex; phrases are modelled
as literals. An empty phrase is left without effect.) -/
def ciWrapAll (w s : List Char) : List Char :=
  if w = [] then s else ciWrapGo w s.length s

/-- Stable insertion into a length-descending list (longer phrases first),
mirroring `ignore_trans_words.sort_by(|a, b| b.len().cmp(&a.len()))`. -/
def insertDescLen (w : List Char) : List (List Char) → List (List Char)
  | [] => [w]
  | x :: xs => if x.length ≤ w.length then w :: x :: xs else x :: insertDescLen w xs

/-- Stable sort by descending length. -/
def sortDescLen (ws : List (List Char)) : List (List Char) :=
  ws.foldr insertDescLen []

/-- The phrase-wrapping fold of `Deepl::add_ignore_tags` (deepl.rs 182-193):
sort the phrases by descending length, then wrap the occurrences of each
phrase in turn, each pass scanning the full result of the previous pass. -/
def applyIgnoreList (m : String) (phrases : List String) : String :=
  String.mk ((sortDescLen (phrases.map String.data)).foldl (fun acc w => ciWrapAll w acc) m.data)

/-- One left-to-right pass deleting every leftmost occurrence of
`<ignore-tag>` or `</ignore-tag>`, as the alternation regex of
`Deepl::remove_ignore_tags` (deepl.rs 202-205) does. -/
def stripGo : Nat → List Char → List Char
  | 0, s => s
  | _ + 1, [] => []
  | n + 1, c :: cs =>
    if startsL igOpen (c :: cs) then stripGo n ((c :: cs).drop igOpen.length)
    else if startsL igClose (c :: cs) then stripGo n ((c :: cs).drop igClose.length)
    else c :: stripGo n cs

/-- `Deepl::remove_ignore_tags`. -/
def remove_ignore_tags (s : String) : String :=
  String.mk (stripGo s.data.length s.data)

/-- Modelled from the spec: the `cmark_xml` module is absent from the sources
(only `lib.rs` re-exports it); inline nodes of the spec §3 document model —
text runs, emphasis, strong, strikethrough, code spans, links and images
(destination, title, and alt text for images), raw inline HTML, and soft and
hard line breaks. -/
inductive Inline where
  | text : List Char → Inline
  | emph : List Inline → Inline
  | strong : List Inline → Inline
  | strike : List Inline → Inline
  | codeSpan : List Char → Inline
  | link : List Char → List Char → List Inline → Inline
  | image : List Char → List Char → List Char → Inline
  | rawHtmlInline : List Char → Inline
  | softBreak : Inline
  | lineBreak : Inline

/-- Modelled from the spec: table column alignments (spec §3). -/
inductive Alignment where
  | aNone : Alignment
  | aLeft : Alignment
  | aCenter : Alignment
  | aRight : Alignment

/-- Modelled from the spec: block-level nodes of spec §3 — headings,
paragraphs, fenced code blocks (info string, literal content), block
quotes, lists (ordered?, start, tight?, items) and list items, tables
(column alignments, rows) with rows and header/data cells, thematic
breaks, and raw HTML blocks. -/
inductive Block where
  | heading : Nat → List Inline → Block
  | para : List Inline → Block
  | codeBlock : List Char → List Char → Block
  | blockQuote : List Block → Block
  | list : Bool → Option Nat → Bool → List Block → Block
  | listItem : List Block → Block
  | table : List Alignment → List Block → Block
  | tableRow : List Block → Block
  | tableCell : Bool → List Inline → Block
  | thematicBreak : Block
  | rawHtmlBlock : List Char → Block

/-- Escaping of the 3 markup metacharacters in translatable text (spec §4.1). -/
def escapeChar (c : Char) : List Char :=
  if c = '&' then '&' :: 'a' :: 'm' :: 'p' :: ';' :: []
  else if c = '<' then '&' :: 'l' :: 't' :: ';' :: []
  else if c = '>' then '&' :: 'g' :: 't' :: ';' :: []
  else c :: []

def escapeChars : List Char → List Char
  | [] => []
  | c :: cs => escapeChar c ++ escapeChars cs

def openEm : List Char := '<' :: 'e' :: 'm' :: '>' :: []

def closeEm : List Char := '<' :: '/' :: 'e' :: 'm' :: '>' :: []

def openStrong : List Char := '<' :: 's' :: 't' :: 'r' :: 'o' :: 'n' :: 'g' :: '>' :: []

def closeStrong : List Char := '<' :: '/' :: 's' :: 't' :: 'r' :: 'o' :: 'n' :: 'g' :: '>' :: []

def openCode : List Char := '<' :: 'c' :: 'o' :: 'd' :: 'e' :: '>' :: []

def closeCode : List Char := '<' :: '/' :: 'c' :: 'o' :: 'd' :: 'e' :: '>' :: []

def openDel : List Char := '<' :: 'd' :: 'e' :: 'l' :: '>' :: []

def closeDel : List Char := '<' :: '/' :: 'd' :: 'e' :: 'l' :: '>' :: []

/-- `<a href="` — links carry destination and title as attributes. -/
def openA : List Char := '<' :: 'a' :: ' ' :: 'h' :: 'r' :: 'e' :: 'f' :: '=' :: '"' :: []

/-- `" title="` continuation between two quoted attribute values. -/
def attrTitle : List Char := ' ' :: 't' :: 'i' :: 't' :: 'l' :: 'e' :: '=' :: '"' :: []

def closeA : List Char := '<' :: '/' :: 'a' :: '>' :: []

/-- `<img src="` — images are serialized as a void element. -/
def openImg : List Char := '<' :: 'i' :: 'm' :: 'g' :: ' ' :: 's' :: 'r' :: 'c' :: '=' :: '"' :: []

/-- `" alt="` continuation before the alt text of an image. -/
def attrAlt : List Char := ' ' :: 'a' :: 'l' :: 't' :: '=' :: '"' :: []

/-- `<embed>` — protected container for raw inline HTML. -/
def openEmbed : List Char := '<' :: 'e' :: 'm' :: 'b' :: 'e' :: 'd' :: '>' :: []

def closeEmbed : List Char := '<' :: '/' :: 'e' :: 'm' :: 'b' :: 'e' :: 'd' :: '>' :: []

/-- `<sbr/>` — a soft line break as a distinguishable void tag (spec §4.1). -/
def sbrTag : List Char := '<' :: 's' :: 'b' :: 'r' :: '/' :: '>' :: []

/-- `<lbr/>` — a hard line break as a distinguishable void tag (spec §4.1). -/
def lbrTag : List Char := '<' :: 'l' :: 'b' :: 'r' :: '/' :: '>' :: []

def openP : List Char := '<' :: 'p' :: '>' :: []

def closeP : List Char := '<' :: '/' :: 'p' :: '>' :: []

/-- `<pre info="` — the protected code-block element carries the fence info
string as an attribute (spec §4.1). -/
def openPreInfo : List Char :=
  '<' :: 'p' :: 'r' :: 'e' :: ' ' :: 'i' :: 'n' :: 'f' :: 'o' :: '=' :: '"' :: []

def closePre : List Char := '<' :: '/' :: 'p' :: 'r' :: 'e' :: '>' :: []

def openBq : List Char :=
  '<' :: 'b' :: 'l' :: 'o' :: 'c' :: 'k' :: 'q' :: 'u' :: 'o' :: 't' :: 'e' :: '>' :: []

def closeBq : List Char :=
  '<' :: '/' :: 'b' :: 'l' :: 'o' :: 'c' :: 'k' :: 'q' :: 'u' :: 'o' :: 't' :: 'e' :: '>' :: []

/-- `<ol start="` — ordered lists carry the start number as an attribute. -/
def openOl : List Char := '<' :: 'o' :: 'l' :: ' ' :: 's' :: 't' :: 'a' :: 'r' :: 't' :: '=' :: '"' :: []

/-- `" tight="` continuation before the tightness flag of a list. -/
def attrTight : List Char := ' ' :: 't' :: 'i' :: 'g' :: 'h' :: 't' :: '=' :: '"' :: []

def closeOl : List Char := '<' :: '/' :: 'o' :: 'l' :: '>' :: []

/-- `<ul tight="` — unordered lists carry only the tightness flag. -/
def openUl : List Char := '<' :: 'u' :: 'l' :: ' ' :: 't' :: 'i' :: 'g' :: 'h' :: 't' :: '=' :: '"' :: []

def closeUl : List Char := '<' :: '/' :: 'u' :: 'l' :: '>' :: []

def openLi : List Char := '<' :: 'l' :: 'i' :: '>' :: []

def closeLi : List Char := '<' :: '/' :: 'l' :: 'i' :: '>' :: []

/-- `<table align="` — the column alignments, one character per column. -/
def openTable : List Char :=
  '<' :: 't' :: 'a' :: 'b' :: 'l' :: 'e' :: ' ' :: 'a' :: 'l' :: 'i' :: 'g' :: 'n' :: '=' :: '"' :: []

def closeTable : List Char := '<' :: '/' :: 't' :: 'a' :: 'b' :: 'l' :: 'e' :: '>' :: []

def openTr : List Char := '<' :: 't' :: 'r' :: '>' :: []

def closeTr : List Char := '<' :: '/' :: 't' :: 'r' :: '>' :: []

def openTh : List Char := '<' :: 't' :: 'h' :: '>' :: []

def closeTh : List Char := '<' :: '/' :: 't' :: 'h' :: '>' :: []

def openTd : List Char := '<' :: 't' :: 'd' :: '>' :: []

def closeTd : List Char := '<' :: '/' :: 't' :: 'd' :: '>' :: []

/-- `<hr/>` — thematic break void tag. -/
def hrTag : List Char := '<' :: 'h' :: 'r' :: '/' :: '>' :: []

/-- `<object>` — protected container for raw HTML blocks. -/
def openObj : List Char := '<' :: 'o' :: 'b' :: 'j' :: 'e' :: 'c' :: 't' :: '>' :: []

def closeObj : List Char := '<' :: '/' :: 'o' :: 'b' :: 'j' :: 'e' :: 'c' :: 't' :: '>' :: []

def openDoc : List Char := '<' :: 'd' :: 'o' :: 'c' :: '>' :: []

def closeDoc : List Char := '<' :: '/' :: 'd' :: 'o' :: 'c' :: '>' :: []

/-- Heading levels 1..6 are carried in the tag name (`h1` … `h6`). -/
def levelChar (l : Nat) : Char := Char.ofNat (48 + l)

/-- The decimal digit characters. -/
def digitChar10 : Nat → Char
  | 0 => '0'
  | 1 => '1'
  | 2 => '2'
  | 3 => '3'
  | 4 => '4'
  | 5 => '5'
  | 6 => '6'
  | 7 => '7'
  | 8 => '8'
  | _ => '9'

/-- Decimal digits of `n`, most significant first (fuel bounds the length). -/
def natCharsGo : Nat → Nat → List Char
  | 0, _ => []
  | fuel + 1, n =>
    if n < 10 then digitChar10 n :: []
    else natCharsGo fuel (n / 10) ++ (digitChar10 (n % 10) :: [])

def natChars (n : Nat) : List Char := natCharsGo (n + 1) n

/-- Decimal value of a digit string. -/
def charsNat : List Char → Nat
  | [] => 0
  | c :: cs => (c.toNat - 48) * 10 ^ cs.length + charsNat cs

/-- The serialized form of a list start number: absent for `none`. -/
def startChars : Option Nat → List Char
  | none => []
  | some n => natChars n

/-- Recover a list start number from the attribute text. -/
def startOfChars (ds : List Char) : Option Nat :=
  if ds = [] then none else some (charsNat ds)

/-- `'1'` for a tight list, `'0'` for a loose one. -/
def tightChar (b : Bool) : Char := if b then '1' else '0'

/-- One character per column alignment. -/
def alignChar : Alignment → Char
  | .aNone => 'n'
  | .aLeft => 'l'
  | .aCenter => 'c'
  | .aRight => 'r'

def charAlign (c : Char) : Option Alignment :=
  if c = 'n' then some Alignment.aNone
  else if c = 'l' then some Alignment.aLeft
  else if c = 'c' then some Alignment.aCenter
  else if c = 'r' then some Alignment.aRight
  else none

def alignsOfChars : List Char → Option (List Alignment)
  | [] => some []
  | c :: cs =>
    match charAlign c, alignsOfChars cs with
    | some a, some rest => some (a :: rest)
    | _, _ => none

mutual

/-- Modelled from the spec: depth-first serialization of one inline node
into the closed tag vocabulary (spec §4.1); code-span and raw-HTML content
is emitted un-escaped (protected/inert elements), link/image attributes
verbatim, and soft/hard breaks as distinguishable void tags. -/
def serInline : Inline → List Char
  | .text t => escapeChars t
  | .emph xs => openEm ++ serInlines xs ++ closeEm
  | .strong xs => openStrong ++ serInlines xs ++ closeStrong
  | .strike xs => openDel ++ serInlines xs ++ closeDel
  | .codeSpan l => openCode ++ l ++ closeCode
  | .link dest title xs =>
    openA ++ dest ++ ('"' :: []) ++ attrTitle ++ title ++ ('"' :: '>' :: [])
      ++ serInlines xs ++ closeA
  | .image dest title alt =>
    openImg ++ dest ++ ('"' :: []) ++ attrTitle ++ title ++ ('"' :: [])
      ++ attrAlt ++ alt ++ ('"' :: '/' :: '>' :: [])
  | .rawHtmlInline l => openEmbed ++ l ++ closeEmbed
  | .softBreak => sbrTag
  | .lineBreak => lbrTag

def serInlines : List Inline → List Char
  | [] => []
  | x :: xs => serInline x ++ serInlines xs

end

mutual

/-- Modelled from the spec: serialization of one block node (spec §4.1);
block quotes, lists, list items and table rows serialize their children
recursively; list and table metadata travel as attributes. -/
def serBlock : Block → List Char
  | .heading l xs =>
    '<' :: 'h' :: levelChar l :: '>' ::
      (serInlines xs ++ ('<' :: '/' :: 'h' :: levelChar l :: '>' :: []))
  | .para xs => openP ++ serInlines xs ++ closeP
  | .codeBlock info lit => openPreInfo ++ info ++ ('"' :: '>' :: []) ++ lit ++ closePre
  | .blockQuote bs => openBq ++ serBlocks bs ++ closeBq
  | .list true st tight bs =>
    openOl ++ startChars st ++ ('"' :: []) ++ attrTight
      ++ (tightChar tight :: '"' :: '>' :: []) ++ serBlocks bs ++ closeOl
  | .list false _ tight bs =>
    openUl ++ (tightChar tight :: '"' :: '>' :: []) ++ serBlocks bs ++ closeUl
  | .listItem bs => openLi ++ serBlocks bs ++ closeLi
  | .table als bs =>
    openTable ++ als.map alignChar ++ ('"' :: '>' :: []) ++ serBlocks bs ++ closeTable
  | .tableRow bs => openTr ++ serBlocks bs ++ closeTr
  | .tableCell true xs => openTh ++ serInlines xs ++ closeTh
  | .tableCell false xs => openTd ++ serInlines xs ++ closeTd
  | .thematicBreak => hrTag
  | .rawHtmlBlock l => openObj ++ l ++ closeObj

def serBlocks : List Block → List Char
  | [] => []
  | b :: bs => serBlock b ++ serBlocks bs

end

/-- Modelled from the spec: `wrap_in_root` adds a single enclosing element
(spec §4.1). -/
def serDoc (wrap : Bool) (bs : List Block) : List Char :=
  if wrap then openDoc ++ serBlocks bs ++ closeDoc else serBlocks bs

/-- A parse position where an inline run ends: end of input or a close tag. -/
def isStop (s : List Char) : Bool :=
  s.isEmpty || startsL ('<' :: '/' :: []) s

/-- Prepend a character to a parsed inline run, merging into a leading text
node so that maximal text runs come out as a single `text`. -/
def consChar (c : Char) : Option (List Inline × List Char) → Option (List Inline × List Char)
  | none => none
  | some (Inline.text t :: more, r) => some (Inline.text (c :: t) :: more, r)
  | some (ms, r) => some (Inline.text (c :: []) :: ms, r)

/-- Read one character entity after a `&`; anything else is malformed. -/
def readEntity (s : List Char) : Option (Char × List Char) :=
  if startsL ('a' :: 'm' :: 'p' :: ';' :: []) s then some ('&', s.drop 4)
  else if startsL ('l' :: 't' :: ';' :: []) s then some ('<', s.drop 3)
  else if startsL ('g' :: 't' :: ';' :: []) s then some ('>', s.drop 3)
  else none

/-- Split at the first occurrence of `pat`: returns the part before it and
the part after it, or `none` when `pat` does not occur. -/
def splitUntil (pat : List Char) : List Char → Option (List Char × List Char)
  | [] => if startsL pat [] then some ([], ([] : List Char).drop pat.length) else none
  | c :: cs =>
    if startsL pat (c :: cs) then some ([], (c :: cs).drop pat.length)
    else
      match splitUntil pat cs with
      | some q => some (c :: q.1, q.2)
      | none => none

/-- Modelled from the spec: recursive-descent parse of an inline run of the
closed tag vocabulary (spec §4.2); stops, without consuming, at any close
tag; entities are decoded; attribute values are scanned up to the closing
quote; a tag outside the vocabulary is malformed. The fuel exceeds the
input length at every use. -/
def parseInlines : Nat → List Char → Option (List Inline × List Char)
  | 0, _ => none
  | n + 1, s =>
    if isStop s then some ([], s)
    else if startsL openEm s then
      match parseInlines n (s.drop 4) with
      | none => none
      | some q =>
        if startsL closeEm q.2 then
          match parseInlines n (q.2.drop 5) with
          | none => none
          | some r => some (Inline.emph q.1 :: r.1, r.2)
        else none
    else if startsL openStrong s then
      match parseInlines n (s.drop 8) with
      | none => none
      | some q =>
        if startsL closeStrong q.2 then
          match parseInlines n (q.2.drop 9) with
          | none => none
          | some r => some (Inline.strong q.1 :: r.1, r.2)
        else none
    else if startsL openDel s then
      match parseInlines n (s.drop 5) with
      | none => none
      | some q =>
        if startsL closeDel q.2 then
          match parseInlines n (q.2.drop 6) with
          | none => none
          | some r => some (Inline.strike q.1 :: r.1, r.2)
        else none
    else if startsL openCode s then
      match splitUntil closeCode (s.drop 6) with
      | none => none
      | some q =>
        match parseInlines n q.2 with
        | none => none
        | some r => some (Inline.codeSpan q.1 :: r.1, r.2)
    else if startsL openA s then
      match splitUntil ('"' :: []) (s.drop 9) with
      | none => none
      | some dq =>
        if startsL attrTitle dq.2 then
          match splitUntil ('"' :: []) (dq.2.drop 8) with
          | none => none
          | some tq =>
            if startsL ('>' :: []) tq.2 then
              match parseInlines n (tq.2.drop 1) with
              | none => none
              | some q =>
                if startsL closeA q.2 then
                  match parseInlines n (q.2.drop 4) with
                  | none => none
                  | some r => some (Inline.link dq.1 tq.1 q.1 :: r.1, r.2)
                else none
            else none
        else none
    else if startsL openImg s then
      match splitUntil ('"' :: []) (s.drop 10) with
      | none => none
      | some dq =>
        if startsL attrTitle dq.2 then
          match splitUntil ('"' :: []) (dq.2.drop 8) with
          | none => none
          | some tq =>
            if startsL attrAlt tq.2 then
              match splitUntil ('"' :: []) (tq.2.drop 6) with
              | none => none
              | some aq =>
                if startsL ('/' :: '>' :: []) aq.2 then
                  match parseInlines n (aq.2.drop 2) with
                  | none => none
                  | some r => some (Inline.image dq.1 tq.1 aq.1 :: r.1, r.2)
                else none
            else none
        else none
    else if startsL openEmbed s then
      match splitUntil closeEmbed (s.drop 7) with
      | none => none
      | some q =>
        match parseInlines n q.2 with
        | none => none
        | some r => some (Inline.rawHtmlInline q.1 :: r.1, r.2)
    else if startsL sbrTag s then
      match parseInlines n (s.drop 6) with
      | none => none
      | some r => some (Inline.softBreak :: r.1, r.2)
    else if startsL lbrTag s then
      match parseInlines n (s.drop 6) with
      | none => none
      | some r => some (Inline.lineBreak :: r.1, r.2)
    else
      match s with
      | [] => none
      | c :: cs =>
        if c = '&' then
          match readEntity cs with
          | none => none
          | some e => consChar e.1 (parseInlines n e.2)
        else if c = '<' then none
        else consChar c (parseInlines n cs)

/-- Modelled from the spec: parse of a block sequence (spec §4.2); stops at
a close tag (the enclosing element's); container blocks parse their
children recursively; heading level, fence info, list and table metadata
are recovered from the tags; verbatim content is recovered exactly.
`<hr/>` is dispatched before the heading tags. -/
def parseBlocks : Nat → List Char → Option (List Block × List Char)
  | 0, _ => none
  | n + 1, s =>
    if isStop s then some ([], s)
    else if startsL openP s then
      match parseInlines n (s.drop 3) with
      | none => none
      | some q =>
        if startsL closeP q.2 then
          match parseBlocks n (q.2.drop 4) with
          | none => none
          | some r => some (Block.para q.1 :: r.1, r.2)
        else none
    else if startsL openPreInfo s then
      match splitUntil ('"' :: []) (s.drop 11) with
      | none => none
      | some iq =>
        if startsL ('>' :: []) iq.2 then
          match splitUntil closePre (iq.2.drop 1) with
          | none => none
          | some lr =>
            match parseBlocks n lr.2 with
            | none => none
            | some r => some (Block.codeBlock iq.1 lr.1 :: r.1, r.2)
        else none
    else if startsL openBq s then
      match parseBlocks n (s.drop 12) with
      | none => none
      | some q =>
        if startsL closeBq q.2 then
          match parseBlocks n (q.2.drop 13) with
          | none => none
          | some r => some (Block.blockQuote q.1 :: r.1, r.2)
        else none
    else if startsL openOl s then
      match splitUntil ('"' :: []) (s.drop 11) with
      | none => none
      | some sq =>
        if startsL attrTight sq.2 then
          match sq.2.drop 8 with
          | [] => none
          | t :: r2 =>
            if t = '1' ∨ t = '0' then
              if startsL ('"' :: '>' :: []) r2 then
                match parseBlocks n (r2.drop 2) with
                | none => none
                | some q =>
                  if startsL closeOl q.2 then
                    match parseBlocks n (q.2.drop 5) with
                    | none => none
                    | some r =>
                      some (Block.list true (startOfChars sq.1) (t == '1') q.1 :: r.1, r.2)
                  else none
              else none
            else none
        else none
    else if startsL openUl s then
      match s.drop 11 with
      | [] => none
      | t :: r2 =>
        if t = '1' ∨ t = '0' then
          if startsL ('"' :: '>' :: []) r2 then
            match parseBlocks n (r2.drop 2) with
            | none => none
            | some q =>
              if startsL closeUl q.2 then
                match parseBlocks n (q.2.drop 5) with
                | none => none
                | some r => some (Block.list false none (t == '1') q.1 :: r.1, r.2)
              else none
          else none
        else none
    else if startsL openLi s then
      match parseBlocks n (s.drop 4) with
      | none => none
      | some q =>
        if startsL closeLi q.2 then
          match parseBlocks n (q.2.drop 5) with
          | none => none
          | some r => some (Block.listItem q.1 :: r.1, r.2)
        else none
    else if startsL openTable s then
      match splitUntil ('"' :: []) (s.drop 14) with
      | none => none
      | some aq =>
        match alignsOfChars aq.1 with
        | none => none
        | some als =>
          if startsL ('>' :: []) aq.2 then
            match parseBlocks n (aq.2.drop 1) with
            | none => none
            | some q =>
              if startsL closeTable q.2 then
                match parseBlocks n (q.2.drop 8) with
                | none => none
                | some r => some (Block.table als q.1 :: r.1, r.2)
              else none
          else none
    else if startsL openTr s then
      match parseBlocks n (s.drop 4) with
      | none => none
      | some q =>
        if startsL closeTr q.2 then
          match parseBlocks n (q.2.drop 5) with
          | none => none
          | some r => some (Block.tableRow q.1 :: r.1, r.2)
        else none
    else if startsL openTh s then
      match parseInlines n (s.drop 4) with
      | none => none
      | some q =>
        if startsL closeTh q.2 then
          match parseBlocks n (q.2.drop 5) with
          | none => none
          | some r => some (Block.tableCell true q.1 :: r.1, r.2)
        else none
    else if startsL openTd s then
      match parseInlines n (s.drop 4) with
      | none => none
      | some q =>
        if startsL closeTd q.2 then
          match parseBlocks n (q.2.drop 5) with
          | none => none
          | some r => some (Block.tableCell false q.1 :: r.1, r.2)
        else none
    else if startsL hrTag s then
      match parseBlocks n (s.drop 5) with
      | none => none
      | some r => some (Block.thematicBreak :: r.1, r.2)
    else if startsL openObj s then
      match splitUntil closeObj (s.drop 8) with
      | none => none
      | some q =>
        match parseBlocks n q.2 with
        | none => none
        | some r => some (Block.rawHtmlBlock q.1 :: r.1, r.2)
    else if startsL ('<' :: 'h' :: []) s then
      match s.drop 2 with
      | [] => none
      | d :: r2 =>
        if '1' ≤ d ∧ d ≤ '6' then
          if startsL ('>' :: []) r2 then
            match parseInlines n (r2.drop 1) with
            | none => none
            | some q =>
              if startsL ('<' :: '/' :: 'h' :: d :: '>' :: []) q.2 then
                match parseBlocks n (q.2.drop 5) with
                | none => none
                | some r => some (Block.heading (d.toNat - 48) q.1 :: r.1, r.2)
              else none
          else none
        else none
    else none

/-- Modelled from the spec: parse markup text into a document, unwrapping
the single root element when `unwrap` is set (spec §4.2); trailing garbage
or an unbalanced root is malformed. -/
def docFromXml (s : List Char) (unwrap : Bool) : Option (List Block) :=
  if unwrap then
    if startsL openDoc s then
      match parseBlocks (s.length + 1) (s.drop 5) with
      | none => none
      | some p => if p.2 = closeDoc then some p.1 else none
    else none
  else
    match parseBlocks (s.length + 1) s with
    | none => none
    | some p => if p.2 = [] then some p.1 else none

/-- Split into lines at `'\n'` (the final line may be empty). -/
def splitLines : List Char → List (List Char)
  | [] => [[]]
  | c :: cs =>
    if c = '\n' then [] :: splitLines cs
    else
      match splitLines cs with
      | [] => [c :: []]
      | l :: ls => (c :: l) :: ls

/-- Rejoin lines with newlines. -/
def joinLines : List (List Char) → List Char
  | [] => []
  | [l] => l
  | l :: l2 :: ls => l ++ ('\n' :: joinLines (l2 :: ls))

/-- Prepend `pre` to every line of `s`. -/
def prefixLines (pre s : List Char) : List Char :=
  joinLines ((splitLines s).map (fun l => pre ++ l))

/-- Prepend `ind` to every line of `s` except the first (list-item
continuation indent). -/
def indentCont (ind s : List Char) : List Char :=
  match splitLines s with
  | [] => []
  | l :: ls => joinLines (l :: ls.map (fun l2 => ind ++ l2))

/-- The rendered start number of a list (`1` when absent). -/
def startNum : Option Nat → Nat
  | none => 1
  | some n => n

/-- ` "title"` suffix inside a link/image destination, empty for an empty
title. -/
def titleSuffix (t : List Char) : List Char :=
  if t = [] then [] else ' ' :: '"' :: (t ++ ('"' :: []))

/-- Canonical separator-row cell for one column alignment. -/
def alignMarker : Alignment → List Char
  | .aNone => '-' :: '-' :: '-' :: []
  | .aLeft => ':' :: '-' :: '-' :: []
  | .aCenter => ':' :: '-' :: ':' :: []
  | .aRight => '-' :: '-' :: ':' :: []

def renderAlignCells : List Alignment → List Char
  | [] => []
  | a :: rest => ' ' :: (alignMarker a ++ (' ' :: '|' :: renderAlignCells rest))

/-- The table separator row, e.g. `| :-- | --: |`. -/
def renderAlignRow (als : List Alignment) : List Char := '|' :: renderAlignCells als

mutual

/-- Modelled from the spec: deterministic CommonMark rendering of one
inline node (spec §4.2): `*`/`**`/`~~` wrapping, backtick-delimited code,
`[text](dest "title")` links, `![alt](dest "title")` images, raw HTML
verbatim, `"\n"` for a soft break and `"  \n"` for a hard break. -/
def renderInline : Inline → List Char
  | .text t => t
  | .emph xs => '*' :: (renderInlines xs ++ ('*' :: []))
  | .strong xs => '*' :: '*' :: (renderInlines xs ++ ('*' :: '*' :: []))
  | .strike xs => '~' :: '~' :: (renderInlines xs ++ ('~' :: '~' :: []))
  | .codeSpan l => '`' :: (l ++ ('`' :: []))
  | .link dest title xs =>
    '[' :: (renderInlines xs ++ (']' :: '(' :: (dest ++ titleSuffix title ++ (')' :: []))))
  | .image dest title alt =>
    '!' :: '[' :: (alt ++ (']' :: '(' :: (dest ++ titleSuffix title ++ (')' :: []))))
  | .rawHtmlInline l => l
  | .softBreak => '\n' :: []
  | .lineBreak => ' ' :: ' ' :: '\n' :: []

def renderInlines : List Inline → List Char
  | [] => []
  | x :: xs => renderInline x ++ renderInlines xs

end

mutual

/-- Modelled from the spec: deterministic CommonMark rendering of one block
(spec §4.2): `#`-run headings, triple-backtick fences, `> `-prefixed
quotes, `- `/`N. ` list markers with continuation indent, canonical pipe
tables, `---` thematic breaks and raw HTML verbatim. -/
def renderBlock : Block → List Char
  | .heading l xs => List.replicate l '#' ++ (' ' :: renderInlines xs)
  | .para xs => renderInlines xs
  | .codeBlock info lit =>
    '`' :: '`' :: '`' :: (info ++ ('\n' :: (lit ++ ('\n' :: '`' :: '`' :: '`' :: []))))
  | .blockQuote bs => prefixLines ('>' :: ' ' :: []) (renderBlocks bs)
  | .list ord st tight bs => renderItems ord (startNum st) tight bs
  | .listItem bs => renderBlocks bs
  | .table als bs =>
    (match bs with
     | [] => renderAlignRow als
     | r :: rs => renderBlock r ++ ('\n' :: (renderAlignRow als ++ renderRows rs)))
  | .tableRow bs => '|' :: renderCells bs
  | .tableCell _ xs => renderInlines xs
  | .thematicBreak => '-' :: '-' :: '-' :: []
  | .rawHtmlBlock l => l

/-- Blocks are separated by one blank line. -/
def renderBlocks : List Block → List Char
  | [] => []
  | [b] => renderBlock b
  | b :: b2 :: bs => renderBlock b ++ ('\n' :: '\n' :: renderBlocks (b2 :: bs))

/-- List items, numbered from `k`; tight items are separated by one
newline, loose items by a blank line. -/
def renderItems : Bool → Nat → Bool → List Block → List Char
  | _, _, _, [] => []
  | ord, k, tight, b :: bs =>
    (if ord then natChars k ++ ('.' :: ' ' :: []) else '-' :: ' ' :: [])
      ++ indentCont
          (List.replicate (if ord then (natChars k).length + 2 else 2) ' ')
          (match b with
           | Block.listItem ibs => renderBlocks ibs
           | other => renderBlock other)
      ++ (match bs with
          | [] => []
          | _ :: _ =>
            (if tight then '\n' :: [] else '\n' :: '\n' :: []) ++ renderItems ord (k + 1) tight bs)

def renderRows : List Block → List Char
  | [] => []
  | r :: rs => '\n' :: (renderBlock r ++ renderRows rs)

def renderCells : List Block → List Char
  | [] => []
  | c :: cs =>
    (match c with
     | Block.tableCell _ xs => ' ' :: (renderInlines xs ++ (' ' :: '|' :: []))
     | other => renderBlock other) ++ renderCells cs

end

/-- Merge a character into a parsed CommonMark inline run. -/
def mdConsChar (c : Char) : List Inline → List Inline
  | Inline.text t :: more => Inline.text (c :: t) :: more
  | ms => Inline.text (c :: []) :: ms

/-- The cell/destination text between brackets: destination, then optional
` "title"`. -/
def lastIs (c : Char) (l : List Char) : Bool := startsL (c :: []) l.reverse

def splitDestTitle (body : List Char) : List Char × List Char :=
  match splitUntil (' ' :: '"' :: []) body with
  | some dq => if lastIs '"' dq.2 then (dq.1, dq.2.dropLast) else (body, [])
  | none => (body, [])

/-- Modelled from the spec: CommonMark inline parsing for the supported
subset (spec §4.1): `**strong**`, `*emphasis*`, `~~strike~~`,
`` `code` ``, `[text](dest "title")` links, `![alt](dest "title")`
images and `<...>` raw inline HTML; a delimiter with no closing partner
stays literal text. -/
def pcInlines : Nat → List Char → List Inline
  | 0, _ => []
  | _ + 1, [] => []
  | n + 1, c :: cs =>
    if startsL ('!' :: '[' :: []) (c :: cs) then
      match splitUntil (']' :: '(' :: []) ((c :: cs).drop 2) with
      | some aq =>
        match splitUntil (')' :: []) aq.2 with
        | some bq =>
          Inline.image (splitDestTitle bq.1).1 (splitDestTitle bq.1).2 aq.1 :: pcInlines n bq.2
        | none => mdConsChar c (pcInlines n cs)
      | none => mdConsChar c (pcInlines n cs)
    else if startsL ('*' :: '*' :: []) (c :: cs) then
      match splitUntil ('*' :: '*' :: []) ((c :: cs).drop 2) with
      | some q => Inline.strong (pcInlines n q.1) :: pcInlines n q.2
      | none => mdConsChar c (pcInlines n cs)
    else if c = '*' then
      match splitUntil ('*' :: []) cs with
      | some q => Inline.emph (pcInlines n q.1) :: pcInlines n q.2
      | none => mdConsChar c (pcInlines n cs)
    else if startsL ('~' :: '~' :: []) (c :: cs) then
      match splitUntil ('~' :: '~' :: []) ((c :: cs).drop 2) with
      | some q => Inline.strike (pcInlines n q.1) :: pcInlines n q.2
      | none => mdConsChar c (pcInlines n cs)
    else if c = '`' then
      match splitUntil ('`' :: []) cs with
      | some q => Inline.codeSpan q.1 :: pcInlines n q.2
      | none => mdConsChar c (pcInlines n cs)
    else if c = '[' then
      match splitUntil (']' :: '(' :: []) cs with
      | some tq =>
        match splitUntil (')' :: []) tq.2 with
        | some bq =>
          Inline.link (splitDestTitle bq.1).1 (splitDestTitle bq.1).2 (pcInlines n tq.1)
            :: pcInlines n bq.2
        | none => mdConsChar c (pcInlines n cs)
      | none => mdConsChar c (pcInlines n cs)
    else if c = '<' then
      match splitUntil ('>' :: []) cs with
      | some hq => Inline.rawHtmlInline ('<' :: (hq.1 ++ ('>' :: []))) :: pcInlines n hq.2
      | none => mdConsChar c (pcInlines n cs)
    else mdConsChar c (pcInlines n cs)

/-- Does a line open or close a code fence? -/
def lineIsFence (l : List Char) : Bool := startsL ('`' :: '`' :: '`' :: []) l

/-- Number of leading `#` characters. -/
def countHashes : List Char → Nat
  | [] => 0
  | c :: cs => if c = '#' then countHashes cs + 1 else 0

def isBlankLine (l : List Char) : Bool := l.all (fun c => c == ' ')

def isHeadingLine (l : List Char) : Bool :=
  decide (1 ≤ countHashes l) && decide (countHashes l ≤ 6)
    && startsL (' ' :: []) (l.drop (countHashes l))

def isQuoteLine (l : List Char) : Bool := startsL ('>' :: []) l

/-- Remove the `> ` (or bare `>`) quote marker. -/
def stripQuote (l : List Char) : List Char :=
  if startsL ('>' :: ' ' :: []) l then l.drop 2 else l.drop 1

def isThematicLine (l : List Char) : Bool :=
  decide (3 ≤ l.length) && l.all (fun c => c == '-')

def isBulletLine (l : List Char) : Bool := startsL ('-' :: ' ' :: []) l

def isDigitChar (c : Char) : Bool := decide ('0' ≤ c) && decide (c ≤ '9')

def leadingDigits (l : List Char) : List Char := l.takeWhile isDigitChar

def isOrderedLine (l : List Char) : Bool :=
  !(leadingDigits l).isEmpty && startsL ('.' :: ' ' :: []) (l.drop (leadingDigits l).length)

def isTableLine (l : List Char) : Bool := startsL ('|' :: []) l

def isHtmlLine (l : List Char) : Bool := startsL ('<' :: []) l

/-- Does a line open a new block (terminating a paragraph)? -/
def lineStartsBlock (l : List Char) : Bool :=
  isBlankLine l || lineIsFence l || isHeadingLine l || isQuoteLine l || isThematicLine l
    || isBulletLine l || isOrderedLine l || isTableLine l || isHtmlLine l

def trailingSpaces (l : List Char) : Nat :=
  (l.reverse.takeWhile (fun c => c == ' ')).length

def stripTrailing (l : List Char) : List Char :=
  (l.reverse.dropWhile (fun c => c == ' ')).reverse

def trimSpaces (l : List Char) : List Char :=
  stripTrailing (l.dropWhile (fun c => c == ' '))

/-- The inline content of a paragraph's lines: trailing whitespace is
stripped from every line; lines are joined with a soft break, or a hard
break after a line ending in two or more spaces. -/
def paraInlines : List (List Char) → List Inline
  | [] => []
  | l :: [] => pcInlines ((stripTrailing l).length + 1) (stripTrailing l)
  | l :: l2 :: ls =>
    pcInlines ((stripTrailing l).length + 1) (stripTrailing l)
      ++ ((if 2 ≤ trailingSpaces l then Inline.lineBreak else Inline.softBreak)
          :: paraInlines (l2 :: ls))

/-- Split a table line at `|`, dropping the leading pipe and a blank
trailing segment, and trimming each cell. -/
def splitOnPipe : List Char → List (List Char)
  | [] => [[]]
  | c :: cs =>
    if c = '|' then [] :: splitOnPipe cs
    else
      match splitOnPipe cs with
      | [] => [c :: []]
      | l :: ls => (c :: l) :: ls

def dropLastBlank (segs : List (List Char)) : List (List Char) :=
  match segs.reverse with
  | [] => []
  | lst :: front => if isBlankLine lst then front.reverse else segs

def splitCells (l : List Char) : List (List Char) :=
  (dropLastBlank (splitOnPipe (l.drop 1))).map trimSpaces

/-- A separator-row cell: optional `:`, dashes, optional `:`. -/
def isSepCell (cl : List Char) : Bool :=
  (fun l2 => !l2.isEmpty && l2.all (fun c => c == '-'))
    ((fun l1 => if lastIs ':' l1 then l1.dropLast else l1)
      (if startsL (':' :: []) cl then cl.drop 1 else cl))

def sepCellAlign (cl : List Char) : Alignment :=
  if startsL (':' :: []) cl then
    (if lastIs ':' cl then Alignment.aCenter else Alignment.aLeft)
  else if lastIs ':' cl then Alignment.aRight
  else Alignment.aNone

def isSepLine (l : List Char) : Bool :=
  isTableLine l && !(splitCells l).isEmpty && (splitCells l).all isSepCell

def headIsSep : List (List Char) → Bool
  | sep :: _ => isSepLine sep
  | [] => false

/-- Modelled from the spec: CommonMark block parsing (spec §4.1):
blank-line separated paragraphs with lazy continuation lines, ATX
headings, triple-backtick fenced code blocks, `> ` block quotes
(recursively parsed), tight `- `/`N. ` lists of single-line items, pipe
tables with a separator row, `---` thematic breaks, and raw HTML blocks
running to the next blank line. -/
def pcBlocks : Nat → List (List Char) → List Block
  | 0, _ => []
  | _ + 1, [] => []
  | n + 1, line :: rest =>
    if isBlankLine line then pcBlocks n rest
    else if lineIsFence line then
      Block.codeBlock (line.drop 3) (joinLines (rest.takeWhile (fun l => !lineIsFence l)))
        :: pcBlocks n ((rest.dropWhile (fun l => !lineIsFence l)).drop 1)
    else if isHeadingLine line then
      Block.heading (countHashes line)
          (pcInlines ((line.drop (countHashes line + 1)).length + 1)
            (line.drop (countHashes line + 1)))
        :: pcBlocks n rest
    else if isQuoteLine line then
      Block.blockQuote (pcBlocks n (((line :: rest).takeWhile isQuoteLine).map stripQuote))
        :: pcBlocks n ((line :: rest).dropWhile isQuoteLine)
    else if isThematicLine line then
      Block.thematicBreak :: pcBlocks n rest
    else if isBulletLine line then
      Block.list false none true
          (((line :: rest).takeWhile isBulletLine).map (fun l =>
            Block.listItem
              (Block.para (pcInlines ((l.drop 2).length + 1) (l.drop 2)) :: [])))
        :: pcBlocks n ((line :: rest).dropWhile isBulletLine)
    else if isOrderedLine line then
      Block.list true (some (charsNat (leadingDigits line))) true
          (((line :: rest).takeWhile isOrderedLine).map (fun l =>
            Block.listItem
              (Block.para
                (pcInlines ((l.drop ((leadingDigits l).length + 2)).length + 1)
                  (l.drop ((leadingDigits l).length + 2))) :: [])))
        :: pcBlocks n ((line :: rest).dropWhile isOrderedLine)
    else if isTableLine line && headIsSep rest then
      (match rest with
       | [] => []
       | sep :: body =>
         Block.table ((splitCells sep).map sepCellAlign)
             (Block.tableRow ((splitCells line).map (fun cl =>
                Block.tableCell true (pcInlines (cl.length + 1) cl)))
               :: (body.takeWhile isTableLine).map (fun rl =>
                Block.tableRow ((splitCells rl).map (fun cl =>
                  Block.tableCell false (pcInlines (cl.length + 1) cl)))))
           :: pcBlocks n (body.dropWhile isTableLine))
    else if isHtmlLine line then
      Block.rawHtmlBlock (joinLines ((line :: rest).takeWhile (fun l => !isBlankLine l)))
        :: pcBlocks n ((line :: rest).dropWhile (fun l => !isBlankLine l))
    else
      Block.para (paraInlines (line :: rest.takeWhile (fun l => !lineStartsBlock l)))
        :: pcBlocks n (rest.dropWhile (fun l => !lineStartsBlock l))

/-- Modelled from the spec: the CommonMark parser over raw text. -/
def parseCmark (s : List Char) : List Block :=
  pcBlocks (s.length + (splitLines s).length + 2) (splitLines s)

/-- `xml_from_cmark` (re-exported by lib.rs): encode CommonMark text into
the wrapped markup document. -/
def xml_from_cmark (cmark : String) (wrap : Bool) : String :=
  String.mk (serDoc wrap (parseCmark cmark.data))

/-- `cmark_from_xml` (re-exported by lib.rs): decode markup text back to
CommonMark, `none` when the markup is malformed. -/
def cmark_from_xml (xml : String) (unwrap : Bool) : Option String :=
  (docFromXml xml.data unwrap).map (fun bs => String.mk (renderBlocks bs))

/-- Re-parsing rendered output: the normalization CommonMark parsing itself
performs (what the round trip preserves inputs up to). -/
def cmarkNormalize (md : String) : String :=
  String.mk (renderBlocks (parseCmark md.data))

/-- `pat` does not occur at any position strictly before the final `pat` of
`lit ++ pat` — the condition for verbatim content to be recovered exactly. -/
def noPreGo (pat : List Char) : Nat → List Char → Bool
  | 0, _ => true
  | k + 1, s => !startsL pat s && noPreGo pat k s.tail

def noPreMatch (pat lit : List Char) : Bool :=
  noPreGo pat lit.length (lit ++ pat)

def isTextInline : Inline → Bool
  | .text _ => true
  | _ => false

/-- Does an inline list begin with a text node? -/
def headIsText : List Inline → Bool
  | Inline.text _ :: _ => true
  | _ => false

mutual

/-- Well-formed inline nodes: nonempty merged text runs, verbatim content
that cannot end its span early, and attribute values free of `"`. -/
def wfInline : Inline → Bool
  | .text t => !t.isEmpty
  | .emph xs => wfInlines xs
  | .strong xs => wfInlines xs
  | .strike xs => wfInlines xs
  | .codeSpan l => noPreMatch closeCode l
  | .link dest title xs =>
    noPreMatch ('"' :: []) dest && (noPreMatch ('"' :: []) title && wfInlines xs)
  | .image dest title alt =>
    noPreMatch ('"' :: []) dest
      && (noPreMatch ('"' :: []) title && noPreMatch ('"' :: []) alt)
  | .rawHtmlInline l => noPreMatch closeEmbed l
  | .softBreak => true
  | .lineBreak => true

def wfInlines : List Inline → Bool
  | [] => true
  | [x] => wfInline x
  | x :: y :: rest => wfInline x && !(isTextInline x && isTextInline y) && wfInlines (y :: rest)

end

mutual

/-- Well-formed blocks: heading levels in 1..6, verbatim/attribute content
that cannot terminate early, no start number on unordered lists, and
well-formed children. -/
def wfBlock : Block → Bool
  | .heading l xs => decide (1 ≤ l) && decide (l ≤ 6) && wfInlines xs
  | .para xs => wfInlines xs
  | .codeBlock info lit => noPreMatch ('"' :: []) info && noPreMatch closePre lit
  | .blockQuote bs => wfBlocks bs
  | .list ord st _ bs => (ord || st.isNone) && wfBlocks bs
  | .listItem bs => wfBlocks bs
  | .table _ bs => wfBlocks bs
  | .tableRow bs => wfBlocks bs
  | .tableCell _ xs => wfInlines xs
  | .thematicBreak => true
  | .rawHtmlBlock l => noPreMatch closeObj l

def wfBlocks : List Block → Bool
  | [] => true
  | b :: bs => wfBlock b && wfBlocks bs

end


/-- `MAX_TRANSLATE_LENGTH` (deepl.rs line 9). -/
def MAX_TRANSLATE_LENGTH : Nat := 500000

/-- `DeeplConfig` (deepl.rs 435-442), restricted to the fields the
translation path reads (`target_extensions` and `glossaries` are only read
by configuration/glossary code that is not modelled here). -/
structure DeeplConfig where
  api_key : String
  project_name : String
  backup_original_text : Bool
  ignores : Option (List (String × List String))

/-- `DeeplConfig::is_free_api_key` (deepl.rs 505-507): the key ends in `:fx`. -/
def DeeplConfig.is_free_api_key (cfg : DeeplConfig) : Bool :=
  startsL ('x' :: 'f' :: ':' :: []) cfg.api_key.data.reverse

/-- Association-list lookup mirroring `HashMap::get` on the ignore table. -/
def lookupKV (k : String) : List (String × List String) → Option (List String)
  | [] => none
  | (k', v) :: rest => if k' = k then some v else lookupKV k rest

/-- `Deepl::add_ignore_tags` (deepl.rs 177-200): wrap the configured
phrases of `target_name`, longest first; unknown target or no ignore table
leaves the markup unchanged. -/
def add_ignore_tags (cfg : DeeplConfig) (target_name : String) (xml_body : String) : String :=
  match cfg.ignores with
  | some igs =>
    match lookupKV target_name igs with
    | some ws => applyIgnoreList xml_body ws
    | none => xml_body
  | none => xml_body

/-- The outcome of a fallible call in the model: a typed `std::io::Error`
(`ioError`) or a Rust panic (`panicked`, from `.unwrap()` on an `Err`). -/
inductive Failure where
  | ioError : String → Failure
  | panicked : Failure
deriving DecidableEq

/-- Externally observable effects of the translation pipeline: the
`GET /usage` request, the two kinds of translation submissions, and the
write of the output file. -/
inductive Event where
  | usageQuery : Event
  | submitXml : String → Event
  | submitStrings : List String → Event
  | fileWrite : String → Event
deriving DecidableEq

/-- The remote DeepL boundary as an oracle: results of `get_usage`,
`translate_xml` and `translate_strings`. -/
structure Provider where
  usage : Except Unit Int
  translateXml : String → Except Unit String
  translateStrings : List String → Except Unit (List String)

/-- The width of `usize` (64-bit target), as a numeral. -/
def USIZE : Nat := 18446744073709551616

/-- `used_chars as usize` — the `i32 → usize` cast at trans.rs 199
(sign-extends negative values). -/
def usizeOfI32 (n : Int) : Nat := (n % (USIZE : Int)).toNat

/-- Wrapping `usize` subtraction, the release-mode semantics of `a - b` at
trans.rs 200 (a debug build would panic on underflow instead). -/
def usizeSub (a b : Nat) : Nat := ((USIZE + a) - b) % USIZE

/-- The error message formatted at trans.rs 203-207 (`used_chars` is the
cast `usize` value). -/
def quotaMessage (used_chars : Nat) : String :=
  "The number of characters to be translated exceeds the limit. " ++ toString used_chars
    ++ "/" ++ toString MAX_TRANSLATE_LENGTH ++ " Used."

/-- `api_availability_check` (trans.rs 198-215). `get_usage().unwrap()`
panics when the usage request fails; otherwise the remaining quota is the
`usize` value `MAX_TRANSLATE_LENGTH - used_chars` — wrapping when
`used_chars` exceeds `MAX_TRANSLATE_LENGTH` (release semantics; a debug
build panics there) — compared against the payload length (characters
here; bytes in Rust — identical on ASCII payloads). -/
def api_availability_check (p : Provider) (text : String) : Except Failure Bool × List Event :=
  match p.usage with
  | .error _ => (.error .panicked, [.usageQuery])
  | .ok used =>
    if usizeSub MAX_TRANSLATE_LENGTH (usizeOfI32 used) < text.length then
      (.error (.ioError (quotaMessage (usizeOfI32 used))), [.usageQuery])
    else (.ok true, [.usageQuery])

/-- The guarded pre-flight check appearing at trans.rs 32-35, 120-123 and
168-171: run `api_availability_check` only under `is_free_api_key()`. -/
def checkStep (cfg : DeeplConfig) (p : Provider) (payload : String) :
    Option Failure × List Event :=
  if cfg.is_free_api_key then
    match api_availability_check p payload with
    | (.error e, ev) => (some e, ev)
    | (.ok _, ev) => (none, ev)
  else (none, [])

/-- The payload `translate_cmark` submits: the encoded body with the
configured ignore phrases wrapped (trans.rs 160-164). -/
def tcPayload (cfg : DeeplConfig) (cmark_text : String) : String :=
  add_ignore_tags cfg cfg.project_name (xml_from_cmark cmark_text true)

/-- `translate_cmark` (trans.rs 153-196): encode, wrap ignore phrases,
optional quota check, submit, strip markers, decode. The two `.unwrap()`
calls (trans.rs 177 on the provider result, trans.rs 191 on the decode
result) surface as `panicked`. -/
def translate_cmark (cfg : DeeplConfig) (p : Provider) (cmark_text : String) :
    Except Failure String × List Event :=
  match checkStep cfg p (tcPayload cfg cmark_text) with
  | (some e, ev) => (.error e, ev)
  | (none, ev) =>
    match p.translateXml (tcPayload cfg cmark_text) with
    | .error _ => (.error .panicked, ev ++ [.submitXml (tcPayload cfg cmark_text)])
    | .ok t =>
      match cmark_from_xml (remove_ignore_tags t) true with
      | none => (.error .panicked, ev ++ [.submitXml (tcPayload cfg cmark_text)])
      | some out => (.ok out, ev ++ [.submitXml (tcPayload cfg cmark_text)])

/-- A TOML value as the traversal of `translate_toml` distinguishes them:
strings, tables, and inert scalar values. -/
inductive Toml where
  | vStr : String → Toml
  | vInt : Int → Toml
  | vBool : Bool → Toml
  | vTable : List (String × Toml) → Toml

/-- A parsed TOML table in iteration order (the Rust `toml::map::Map`
iterates its entries in sorted key order; the list records that order). -/
abbrev TomlTable := List (String × Toml)

/-- Selected values of the `extra` table: string values under `time`
(trans.rs 96-109). -/
def collectExtra : TomlTable → List String
  | [] => []
  | (k, v) :: rest =>
    (if k = "time" then
       match v with
       | .vStr s => [s]
       | _ => []
     else []) ++ collectExtra rest

/-- The values `translate_toml` submits (trans.rs 88-112): string values of
top-level `title` and `description`, and of `extra.time`, in iteration
order. -/
def collectTexts : TomlTable → List String
  | [] => []
  | (k, v) :: rest =>
    (if k = "title" ∨ k = "description" then
       match v with
       | .vStr s => [s]
       | _ => []
     else if k = "extra" then
       match v with
       | .vTable ex => collectExtra ex
       | _ => []
     else []) ++ collectTexts rest

/-- Write translations back into the `extra` table, consuming the
replacement list front-first (the `zip` at trans.rs 132-138 pairs the
collected mutable references with the response in order). -/
def replaceExtra : TomlTable → List String → TomlTable × List String
  | [], repl => ([], repl)
  | (k, v) :: rest, repl =>
    let step : Toml × List String :=
      if k = "time" then
        match v, repl with
        | .vStr _, t :: ts => (.vStr t, ts)
        | _, _ => (v, repl)
      else (v, repl)
    let tail := replaceExtra rest step.2
    ((k, step.1) :: tail.1, tail.2)

/-- Write translations back into the root table: the selected values
receive the response strings in iteration order; when the response is
shorter than the selection the leftover values keep their original text
(`zip` stops at the shorter side). -/
def replaceSelected : TomlTable → List String → TomlTable × List String
  | [], repl => ([], repl)
  | (k, v) :: rest, repl =>
    let step : Toml × List String :=
      if k = "title" ∨ k = "description" then
        match v, repl with
        | .vStr _, t :: ts => (.vStr t, ts)
        | _, _ => (v, repl)
      else if k = "extra" then
        match v with
        | .vTable ex =>
          let r := replaceExtra ex repl
          (.vTable r.1, r.2)
        | _ => (v, repl)
      else (v, repl)
    let tail := replaceSelected rest step.2
    ((k, step.1) :: tail.1, tail.2)

/-- `src_vec.join("")` (trans.rs 122). -/
def joinAll : List String → String
  | [] => ""
  | s :: rest => s ++ joinAll rest

/-- `translate_toml` (trans.rs 79-150), from the successfully parsed root
table on: collect the selected values, optional quota check on their
concatenation, submit them as a batch, zip the response back in. A provider
error is mapped to a typed error (trans.rs 129), not a panic. -/
def translate_toml (cfg : DeeplConfig) (p : Provider) (root : TomlTable) :
    Except Failure TomlTable × List Event :=
  match checkStep cfg p (joinAll (collectTexts root)) with
  | (some e, ev) => (.error e, ev)
  | (none, ev) =>
    match p.translateStrings (collectTexts root) with
    | .error _ =>
      (.error (.ioError "translate_strings failed"), ev ++ [.submitStrings (collectTexts root)])
    | .ok tv => (.ok (replaceSelected root tv).1, ev ++ [.submitStrings (collectTexts root)])

/-- `"-->"`. -/
def arrowPat : List Char := '-' :: '-' :: '>' :: []

/-- `"-!->"`. -/
def arrowRepl : List Char := '-' :: '!' :: '-' :: '>' :: []

/-- Left-to-right replacement of every occurrence of `-->` by `-!->`
(`str::replace` at trans.rs 70). -/
def replaceArrowsGo : Nat → List Char → List Char
  | 0, s => s
  | _ + 1, [] => []
  | n + 1, c :: cs =>
    if startsL arrowPat (c :: cs) then arrowRepl ++ replaceArrowsGo n ((c :: cs).drop 3)
    else c :: replaceArrowsGo n cs

def replaceArrows (s : String) : String :=
  String.mk (replaceArrowsGo s.data.length s.data)

/-- The output text assembled at trans.rs 58-72: optional front-matter
section (delimiter, front matter emitted verbatim, delimiter), the
translated body, and, under `backup_original_text`, the original body in a
trailing comment with `-->` escaped. -/
def assembleOutput (delimiter : String) (fm : Option String) (body orig : String)
    (backup : Bool) : String :=
  (match fm with
   | some f => delimiter ++ "\n" ++ f ++ delimiter ++ "\n"
   | none => "") ++ body
    ++ (if backup then "\n<!---\n" ++ replaceArrows orig ++ "\n-->\n" else "")

/-- `extension == "md" || extension == "mdx"` (trans.rs 28-30). -/
def isMdExt (ext : Option String) : Bool :=
  ext = some "md" || ext = some "mdx"

/-- The front-matter handling of `translate_cmark_file` (trans.rs 37-45):
pass the front matter through for plain `.md`/`.mdx` files, otherwise
parse it as TOML and run `translate_toml`.  TOML parsing and
pretty-printing are the external `toml` crate, passed as oracles. -/
def fmStepF (cfg : DeeplConfig) (p : Provider)
    (parseToml : String → Option TomlTable) (printToml : TomlTable → String)
    (ext : Option String) (frontmatter : Option String) :
    Except Failure (Option String) × List Event :=
  match frontmatter with
  | some fm =>
    if isMdExt ext then (.ok (some fm), [])
    else
      match parseToml fm with
      | none => (.error (.ioError "invalid TOML frontmatter"), [])
      | some root =>
        match translate_toml cfg p root with
        | (.error e, ev) => (.error e, ev)
        | (.ok t, ev) => (.ok (some (printToml t)), ev)
  | none => (.ok none, [])

/-- `translate_cmark_file` (trans.rs 5-76) after the external front-matter
split of spec §6: the file arrives as `(delimiter, frontmatter?, body)`.
The function checks quota (free keys only), translates the front matter
unless the file is plain `.md`/`.mdx`, translates the body, and only then
writes the assembled output. -/
def translate_cmark_file (cfg : DeeplConfig) (p : Provider)
    (parseToml : String → Option TomlTable) (printToml : TomlTable → String)
    (ext : Option String) (delimiter : String) (frontmatter : Option String)
    (cmark_text : String) : Except Failure String × List Event :=
  match checkStep cfg p cmark_text with
  | (some e, ev) => (.error e, ev)
  | (none, ev0) =>
    match fmStepF cfg p parseToml printToml ext frontmatter with
    | (.error e, ev1) => (.error e, ev0 ++ ev1)
    | (.ok tfm, ev1) =>
      match translate_cmark cfg p cmark_text with
      | (.error e, ev2) => (.error e, ev0 ++ ev1 ++ ev2)
      | (.ok body, ev2) =>
        (.ok (assembleOutput delimiter tfm body cmark_text cfg.backup_original_text),
          ev0 ++ ev1 ++ ev2
            ++ [.fileWrite (assembleOutput delimiter tfm body cmark_text cfg.backup_original_text)])

/-- A configuration with a Pro API key (does not end in `:fx`). -/
def cfgPro : DeeplConfig := ⟨"secret-key", "proj", false, none⟩

/-- A configuration with a free-plan API key (ends in `:fx`). -/
def cfgFree : DeeplConfig := ⟨"secret-key:fx", "proj", false, none⟩

/-- A provider whose translation requests fail (network/HTTP error). -/
def pFail : Provider := ⟨.ok 0, fun _ => .error (), fun _ => .error ()⟩

/-- A provider that echoes every payload, with the whole character quota
already consumed (`get_usage` returns `MAX_TRANSLATE_LENGTH`). -/
def pSpent : Provider := ⟨.ok 500000, fun s => .ok s, fun xs => .ok xs⟩

/-- An echo provider whose reported usage exceeds `MAX_TRANSLATE_LENGTH`,
the regime where the release binary's `usize` subtraction wraps. -/
def pOver : Provider := ⟨.ok 600000, fun s => .ok s, fun xs => .ok xs⟩

/-- A provider that appends `!` to each batched string (quota untouched). -/
def pBang : Provider := ⟨.ok 0, fun s => .ok s, fun xs => .ok (xs.map (fun s => s ++ "!"))⟩

/-- A provider that answers every batch with the single string `"X"`. -/
def pShort : Provider := ⟨.ok 0, fun s => .ok s, fun _ => .ok ["X"]⟩

/-- A TOML-parse oracle for runs whose front matter is never parsed. -/
def tomlParseNone : String → Option TomlTable := fun _ => none

/-- A TOML-print oracle for runs whose front matter is never printed. -/
def tomlPrintEmpty : TomlTable → String := fun _ => ""

/-- A sample front-matter table, in the sorted iteration order of the Rust
`toml` map: `description`, `extra.time` (plus an inert `extra.z`), an inert
`other`, and `title`. -/
def rootSample : TomlTable :=
  ("description", Toml.vStr "D") ::
    ("extra", Toml.vTable (("time", Toml.vStr "T1") :: ("z", Toml.vInt 3) :: [])) ::
      ("other", Toml.vBool true) :: ("title", Toml.vStr "T") :: []

/-! Theorems. -/

theorem stripGo_of_not_occurs (n : Nat) :
    ∀ s : List Char, occursIn igOpen s = false → occursIn igClose s = false →
      stripGo n s = s := by
  induction n with
  | zero => intro s _ _; rfl
  | succ n ih =>
    intro s ho hc
    match s with
    | [] => rfl
    | c :: cs =>
      rw [occursIn, Bool.or_eq_false_iff] at ho hc
      rw [stripGo, if_neg (by simp [ho.1]), if_neg (by simp [hc.1]), ih cs ho.2 hc.2]

/-- Claim C2 (counterexample): stripping after applying is not the identity
on every markup string and phrase list.  With the empty phrase list a
marker pair already present in the input is deleted; with the phrases
`["Birmingham", "a"]` the second pass wraps the letter `a` inside the
markers inserted by the first pass, and stripping leaves reassembled
marker text behind. -/
theorem c2_counterexample :
    remove_ignore_tags (applyIgnoreList "<ignore-tag>x</ignore-tag>" [])
        ≠ "<ignore-tag>x</ignore-tag>"
      ∧ remove_ignore_tags (applyIgnoreList "Birmingham" ("Birmingham" :: "a" :: []))
        ≠ "Birmingham" := by
  exact ⟨by decide, by decide⟩

/-- Claim C2 (amended): with the empty phrase list, stripping the ignore
markers after applying the ignore list returns the input unchanged for
every markup string that contains no occurrence of the literal marker
strings `<ignore-tag>` / `</ignore-tag>`. -/
theorem c2_strip_after_apply_identity (m : String)
    (ho : occursIn igOpen m.data = false) (hc : occursIn igClose m.data = false) :
    remove_ignore_tags (applyIgnoreList m []) = m := by
  show String.mk (stripGo m.data.length m.data) = m
  rw [stripGo_of_not_occurs _ _ ho hc]

/-- Claim C2 (witness). -/
theorem c2_witness :
    remove_ignore_tags (applyIgnoreList "Hello <b>x</b> world" []) = "Hello <b>x</b> world" :=
  c2_strip_after_apply_identity _ (by decide) (by decide)

/-- Claim C3 (counterexample): on `"New York City"` with phrases
`["New York", "New"]` the result is not the single marker pair around
`New York` — the later, shorter phrase `New` is wrapped again inside the
already-wrapped span. -/
theorem c3_counterexample :
    applyIgnoreList "New York City" ("New York" :: "New" :: [])
      ≠ "<ignore-tag>New York</ignore-tag> City" := by
  decide

/-- Claim C3 (amended): phrases are matched in descending length order, so
`New York` is wrapped as one unit (not as `New` + ` York`), and the
subsequent pass for `New` wraps the occurrence inside the already-wrapped
span once more, producing nested markers. -/
theorem c3_longest_first_nested :
    applyIgnoreList "New York City" ("New York" :: "New" :: [])
      = "<ignore-tag><ignore-tag>New</ignore-tag> York</ignore-tag> City" := by
  decide

/-- Claim C4 (counterexample): a phrase occurring only inside a verbatim
`<code>` span is still wrapped — the bytes inside the protected span are
not left identical. -/
theorem c4_counterexample :
    applyIgnoreList "<code>New York</code>" ("New York" :: []) ≠ "<code>New York</code>" := by
  decide

/-- Claim C4 (amended): `add_ignore_tags` performs plain textual
replacement over the whole markup string, so phrase occurrences inside
verbatim/protected spans are wrapped as well; the inserted markers are
removable again by `remove_ignore_tags`. -/
theorem c4_wraps_inside_verbatim :
    applyIgnoreList "<code>New York</code>" ("New York" :: [])
        = "<code><ignore-tag>New York</ignore-tag></code>"
      ∧ remove_ignore_tags "<code><ignore-tag>New York</ignore-tag></code>"
        = "<code>New York</code>" := by
  exact ⟨by decide, by decide⟩

/-- Claim C5: when the provider request behind `translate_xml` fails, the
`.unwrap()` at trans.rs 177 panics instead of returning the typed error
that the `Result` signature promises (in batch mode the panic aborts the
process rather than one document). -/
theorem c5_provider_error_panics :
    translate_cmark cfgPro pFail "Hello." =
      (.error Failure.panicked, Event.submitXml "<doc><p>Hello.</p></doc>" :: []) := by
  rfl

theorem api_check_events (p : Provider) (s : String) :
    (api_availability_check p s).2 = [Event.usageQuery] := by
  rcases hu : p.usage with e | used
  · simp [api_availability_check, hu]
  · by_cases hq : usizeSub MAX_TRANSLATE_LENGTH (usizeOfI32 used) < s.length <;>
      simp [api_availability_check, hu, hq]

theorem checkStep_not_free (cfg : DeeplConfig) (p : Provider) (s : String)
    (h : cfg.is_free_api_key = false) : checkStep cfg p s = (none, []) := by
  unfold checkStep
  rw [h]
  rfl

theorem checkStep_free_events (cfg : DeeplConfig) (p : Provider) (s : String)
    (h : cfg.is_free_api_key = true) : (checkStep cfg p s).2 = [Event.usageQuery] := by
  have hev := api_check_events p s
  rcases hac : api_availability_check p s with ⟨r, ev⟩
  rw [hac] at hev
  cases r <;> simp [checkStep, h, hac, hev]

theorem usizeOfI32_of_bounds (used : Int) (h0 : 0 ≤ used)
    (hum : used ≤ (MAX_TRANSLATE_LENGTH : Int)) : usizeOfI32 used = used.toNat := by
  unfold usizeOfI32 USIZE MAX_TRANSLATE_LENGTH at *
  omega

theorem usizeSub_check_iff (used : Int) (len : Nat) (h0 : 0 ≤ used)
    (hum : used ≤ (MAX_TRANSLATE_LENGTH : Int)) :
    usizeSub MAX_TRANSLATE_LENGTH (usizeOfI32 used) < len
      ↔ (MAX_TRANSLATE_LENGTH : Int) - used < (len : Int) := by
  unfold usizeSub usizeOfI32 USIZE MAX_TRANSLATE_LENGTH at *
  omega

theorem checkStep_free_exceeded (cfg : DeeplConfig) (p : Provider) (s : String) (used : Int)
    (h : cfg.is_free_api_key = true) (hu : p.usage = .ok used)
    (h0 : 0 ≤ used) (hum : used ≤ (MAX_TRANSLATE_LENGTH : Int))
    (hq : (MAX_TRANSLATE_LENGTH : Int) - used < (s.length : Int)) :
    checkStep cfg p s = (some (.ioError (quotaMessage used.toNat)), [Event.usageQuery]) := by
  have hq2 : usizeSub MAX_TRANSLATE_LENGTH (usizeOfI32 used) < s.length :=
    (usizeSub_check_iff used s.length h0 hum).mpr hq
  rw [usizeOfI32_of_bounds used h0 hum] at hq2
  simp [checkStep, h, api_availability_check, hu, hq2, usizeOfI32_of_bounds used h0 hum]

theorem translate_cmark_events_not_free (cfg : DeeplConfig) (p : Provider) (md : String)
    (h : cfg.is_free_api_key = false) :
    (translate_cmark cfg p md).2 = [Event.submitXml (tcPayload cfg md)] := by
  unfold translate_cmark
  rw [checkStep_not_free cfg p _ h]
  cases hx : p.translateXml (tcPayload cfg md) with
  | error e => simp
  | ok t => cases hd : cmark_from_xml (remove_ignore_tags t) true <;> simp [hd]

theorem translate_toml_events_not_free (cfg : DeeplConfig) (p : Provider) (root : TomlTable)
    (h : cfg.is_free_api_key = false) :
    (translate_toml cfg p root).2 = [Event.submitStrings (collectTexts root)] := by
  unfold translate_toml
  rw [checkStep_not_free cfg p _ h]
  cases hx : p.translateStrings (collectTexts root) <;> simp

theorem usage_not_in_fmStep (cfg : DeeplConfig) (p : Provider)
    (pt : String → Option TomlTable) (pr : TomlTable → String)
    (ext : Option String) (fm : Option String) (h : cfg.is_free_api_key = false) :
    Event.usageQuery ∉ (fmStepF cfg p pt pr ext fm).2 := by
  unfold fmStepF
  cases fm with
  | none => simp
  | some f =>
    by_cases hmd : isMdExt ext
    · simp [hmd]
    · cases hp : pt f with
      | none => simp [hmd, hp]
      | some root =>
        have hev := translate_toml_events_not_free cfg p root h
        rcases ht : translate_toml cfg p root with ⟨r, ev⟩
        rw [ht] at hev
        cases r <;> simp [hmd, hp, ht, hev]

theorem usage_in_translate_cmark (cfg : DeeplConfig) (p : Provider) (md : String)
    (h : cfg.is_free_api_key = true) :
    Event.usageQuery ∈ (translate_cmark cfg p md).2 := by
  have hev := checkStep_free_events cfg p (tcPayload cfg md) h
  rcases hcs : checkStep cfg p (tcPayload cfg md) with ⟨r, ev⟩
  rw [hcs] at hev
  simp only [] at hev
  unfold translate_cmark
  rw [hcs]
  cases r with
  | some e => simp [hev]
  | none =>
    cases hx : p.translateXml (tcPayload cfg md) with
    | error e => simp [hev]
    | ok t => cases hd : cmark_from_xml (remove_ignore_tags t) true <;> simp [hd, hev]

theorem usage_in_translate_cmark_file (cfg : DeeplConfig) (p : Provider)
    (pt : String → Option TomlTable) (pr : TomlTable → String)
    (ext : Option String) (delim : String) (fm : Option String) (body : String)
    (h : cfg.is_free_api_key = true) :
    Event.usageQuery ∈ (translate_cmark_file cfg p pt pr ext delim fm body).2 := by
  have hev := checkStep_free_events cfg p body h
  rcases hcs : checkStep cfg p body with ⟨r, ev⟩
  rw [hcs] at hev
  simp only [] at hev
  unfold translate_cmark_file
  rw [hcs]
  cases r with
  | some e => simp [hev]
  | none =>
    rcases hfs : fmStepF cfg p pt pr ext fm with ⟨r1, ev1⟩
    cases r1 with
    | error e => simp [hfs, hev]
    | ok tfm =>
      rcases htc : translate_cmark cfg p body with ⟨r2, ev2⟩
      cases r2 <;> simp [hfs, htc, hev]

theorem usage_not_in_translate_cmark_file (cfg : DeeplConfig) (p : Provider)
    (pt : String → Option TomlTable) (pr : TomlTable → String)
    (ext : Option String) (delim : String) (fm : Option String) (body : String)
    (h : cfg.is_free_api_key = false) :
    Event.usageQuery ∉ (translate_cmark_file cfg p pt pr ext delim fm body).2 := by
  have hfm := usage_not_in_fmStep cfg p pt pr ext fm h
  have hbody := translate_cmark_events_not_free cfg p body h
  unfold translate_cmark_file
  rw [checkStep_not_free cfg p _ h]
  rcases hfs : fmStepF cfg p pt pr ext fm with ⟨r1, ev1⟩
  rw [hfs] at hfm
  have h1 : Event.usageQuery ∉ ev1 := by simpa using hfm
  cases r1 with
  | error e => simpa using h1
  | ok tfm =>
    rcases htc : translate_cmark cfg p body with ⟨r2, ev2⟩
    rw [htc] at hbody
    have h2 : ev2 = [Event.submitXml (tcPayload cfg body)] := by simpa using hbody
    cases r2 <;> simp [h1, h2]

/-- Claim C9: the pre-flight quota check (the `GET /usage` request) is
performed if and only if the configured API key ends in `:fx`; with any
other key both `translate_cmark` and `translate_cmark_file` submit the
document without any character-budget check, whatever the payload. -/
theorem c9_check_only_for_free_keys (cfg : DeeplConfig) (p : Provider)
    (pt : String → Option TomlTable) (pr : TomlTable → String)
    (ext : Option String) (delim : String) (fm : Option String) (md body : String) :
    (Event.usageQuery ∈ (translate_cmark cfg p md).2 ↔ cfg.is_free_api_key = true)
    ∧ (Event.usageQuery ∈ (translate_cmark_file cfg p pt pr ext delim fm body).2
        ↔ cfg.is_free_api_key = true)
    ∧ (cfg.is_free_api_key = false →
        (translate_cmark cfg p md).2 = [Event.submitXml (tcPayload cfg md)]) := by
  cases hfree : cfg.is_free_api_key with
  | false =>
    refine ⟨?_, ?_, fun _ => translate_cmark_events_not_free cfg p md hfree⟩
    · rw [translate_cmark_events_not_free cfg p md hfree]
      simp
    · simp [usage_not_in_translate_cmark_file cfg p pt pr ext delim fm body hfree]
  | true =>
    exact ⟨by simp [usage_in_translate_cmark cfg p md hfree],
      by simp [usage_in_translate_cmark_file cfg p pt pr ext delim fm body hfree],
      fun hc => by simp at hc⟩

/-- Claim C9 (witness). -/
theorem c9_witness :
    (translate_cmark cfgPro pSpent "Hi.").2 = [Event.submitXml "<doc><p>Hi.</p></doc>"]
    ∧ Event.usageQuery ∈ (translate_cmark cfgFree pSpent "Hi.").2 :=
  ⟨(c9_check_only_for_free_keys cfgPro pSpent tomlParseNone tomlPrintEmpty none "" none
      "Hi." "Hi.").2.2 (by decide),
    (c9_check_only_for_free_keys cfgFree pSpent tomlParseNone tomlPrintEmpty none "" none
      "Hi." "Hi.").1.mpr (by decide)⟩

/-- Claim C6 (counterexample): the claimed pre-flight check does not
protect every document.  With a Pro API key no check runs at all — a
payload exceeding the remaining quota (usage at the limit, remaining
0 < 6) is still submitted and the output file written, with no usage query
in the trace.  And even with a free key, when the reported usage exceeds
`MAX_TRANSLATE_LENGTH` the release binary's wrapping `usize` subtraction
makes the check pass, so the document is again submitted and written. -/
theorem c6_counterexample :
    ((MAX_TRANSLATE_LENGTH : Int) - 500000 < ((("Hello." : String).length : Int)))
    ∧ translate_cmark_file cfgPro pSpent tomlParseNone tomlPrintEmpty (some "md") "+++"
        none "Hello."
      = (.ok "Hello.", Event.submitXml "<doc><p>Hello.</p></doc>"
          :: Event.fileWrite "Hello." :: [])
    ∧ translate_cmark_file cfgFree pOver tomlParseNone tomlPrintEmpty (some "md") "+++"
        none "Hello."
      = (.ok "Hello.", Event.usageQuery :: Event.usageQuery
          :: Event.submitXml "<doc><p>Hello.</p></doc>"
          :: Event.fileWrite "Hello." :: []) := by
  exact ⟨by decide, by rfl, by rfl⟩

/-- Claim C6 (amended): only when the API key is a free-plan key (`:fx`)
does `translate_cmark_file` run the pre-flight character-budget check, and
its guard is the wrapping `usize` subtraction of trans.rs 200: when the
reported usage is within `0 ≤ used ≤ MAX_TRANSLATE_LENGTH` and the body
exceeds the remaining quota, the run fails with the quota error before
anything is submitted and no output (not even a partial one) is written —
the trace holds the usage query alone.  (With `used` beyond the limit the
wrapped subtraction lets the document through; a debug build panics.) -/
theorem c6_free_quota_guard (cfg : DeeplConfig) (p : Provider)
    (pt : String → Option TomlTable) (pr : TomlTable → String)
    (ext : Option String) (delim : String) (fm : Option String) (body : String) (used : Int)
    (hfree : cfg.is_free_api_key = true) (hu : p.usage = .ok used)
    (h0 : 0 ≤ used) (hum : used ≤ (MAX_TRANSLATE_LENGTH : Int))
    (hq : (MAX_TRANSLATE_LENGTH : Int) - used < (body.length : Int)) :
    translate_cmark_file cfg p pt pr ext delim fm body
      = (.error (.ioError (quotaMessage used.toNat)), [Event.usageQuery]) := by
  unfold translate_cmark_file
  rw [checkStep_free_exceeded cfg p body used hfree hu h0 hum hq]

/-- Claim C6 (witness). -/
theorem c6_witness :
    translate_cmark_file cfgFree pSpent tomlParseNone tomlPrintEmpty (some "md") "+++"
        none "Hello."
      = (.error (.ioError (quotaMessage 500000)), [Event.usageQuery]) :=
  c6_free_quota_guard cfgFree pSpent tomlParseNone tomlPrintEmpty (some "md") "+++" none
    "Hello." 500000 (by decide) rfl (by decide) (by decide) (by decide)

/-- Claim C7 (counterexample): the code emits the front matter verbatim and
inserts no newline after it; a front matter not ending in a newline yields
`+++\nt+++\n…`, not the claimed `delimiter⏎ front-matter⏎ delimiter⏎` form. -/
theorem c7_counterexample :
    translate_cmark_file cfgPro pSpent tomlParseNone tomlPrintEmpty (some "md") "+++"
        (some "t") "Hi."
      = (.ok "+++\nt+++\nHi.", Event.submitXml "<doc><p>Hi.</p></doc>"
          :: Event.fileWrite "+++\nt+++\nHi." :: [])
    ∧ "+++\nt+++\nHi." ≠ "+++\nt\n+++\nHi." := by
  exact ⟨by rfl, by decide⟩

/-- Claim C7 (amended): the persisted output is delimiter+newline, the
front matter emitted verbatim, delimiter+newline (only when front matter
is present), then the translated body, then — only under the
backup-original-text flag — `\n<!---\n`, the original body with every
`-->` replaced by `-!->`, and `\n-->\n`; the claimed shape holds exactly
when the front-matter text itself ends with a newline. -/
theorem c7_output_format (delim fmc body orig : String) (bk : Bool) :
    assembleOutput delim (some (fmc ++ "\n")) body orig bk
      = delim ++ "\n" ++ fmc ++ "\n" ++ delim ++ "\n" ++ body
        ++ (if bk then "\n<!---\n" ++ replaceArrows orig ++ "\n-->\n" else "")
    ∧ assembleOutput delim none body orig bk
      = body ++ (if bk then "\n<!---\n" ++ replaceArrows orig ++ "\n-->\n" else "") := by
  constructor
  · simp [assembleOutput, String.append_assoc]
  · simp [assembleOutput]

theorem replaceExtra_spec :
    ∀ (ex : TomlTable) (repl : List String),
      collectExtra (replaceExtra ex repl).1
          = repl.take (collectExtra ex).length ++ (collectExtra ex).drop repl.length
        ∧ (replaceExtra ex repl).2 = repl.drop (collectExtra ex).length
  | [], repl => by simp [replaceExtra, collectExtra]
  | (k, v) :: rest, repl => by
    by_cases hk : k = "time"
    · cases v with
      | vStr s =>
        cases repl with
        | nil =>
          have ih := replaceExtra_spec rest []
          simp [replaceExtra, collectExtra, hk, ih.1, ih.2]
        | cons t ts =>
          have ih := replaceExtra_spec rest ts
          simp [replaceExtra, collectExtra, hk, ih.1, ih.2]
      | vInt i =>
        have ih := replaceExtra_spec rest repl
        simp [replaceExtra, collectExtra, hk, ih.1, ih.2]
      | vBool b =>
        have ih := replaceExtra_spec rest repl
        simp [replaceExtra, collectExtra, hk, ih.1, ih.2]
      | vTable t2 =>
        have ih := replaceExtra_spec rest repl
        simp [replaceExtra, collectExtra, hk, ih.1, ih.2]
    · have ih := replaceExtra_spec rest repl
      simp [replaceExtra, collectExtra, hk, ih.1, ih.2]

theorem replaceSelected_spec :
    ∀ (root : TomlTable) (repl : List String),
      collectTexts (replaceSelected root repl).1
          = repl.take (collectTexts root).length ++ (collectTexts root).drop repl.length
        ∧ (replaceSelected root repl).2 = repl.drop (collectTexts root).length
  | [], repl => by simp [replaceSelected, collectTexts]
  | (k, v) :: rest, repl => by
    by_cases hk : k = "title" ∨ k = "description"
    · have hne : k ≠ "extra" := by rcases hk with hk | hk <;> simp [hk]
      cases v with
      | vStr s =>
        cases repl with
        | nil =>
          have ih := replaceSelected_spec rest []
          simp [replaceSelected, collectTexts, hk, hne, ih.1, ih.2]
        | cons t ts =>
          have ih := replaceSelected_spec rest ts
          simp [replaceSelected, collectTexts, hk, hne, ih.1, ih.2]
      | vInt i =>
        have ih := replaceSelected_spec rest repl
        simp [replaceSelected, collectTexts, hk, hne, ih.1, ih.2]
      | vBool b =>
        have ih := replaceSelected_spec rest repl
        simp [replaceSelected, collectTexts, hk, hne, ih.1, ih.2]
      | vTable ex =>
        have ih := replaceSelected_spec rest repl
        simp [replaceSelected, collectTexts, hk, hne, ih.1, ih.2]
    · by_cases he : k = "extra"
      · cases v with
        | vTable ex =>
          have hex := replaceExtra_spec ex repl
          have ih := replaceSelected_spec rest (repl.drop (collectExtra ex).length)
          simp only [replaceSelected, collectTexts, if_neg hk, if_pos he]
          rw [hex.1, hex.2, ih.1, ih.2]
          constructor
          · rw [List.length_append, List.drop_append_eq_append_drop, List.length_drop]
            rcases le_or_lt repl.length (collectExtra ex).length with h1 | h1
            · rw [List.take_of_length_le h1,
                List.take_of_length_le (le_trans h1 (Nat.le_add_right _ _)),
                List.drop_eq_nil_of_le h1]
              simp [Nat.sub_eq_zero_of_le h1]
            · rw [List.drop_eq_nil_of_le (le_of_lt h1), List.take_add]
              simp
          · simp [List.length_append, List.drop_drop, Nat.add_comm]
        | vStr s =>
          have ih := replaceSelected_spec rest repl
          simp [replaceSelected, collectTexts, hk, he, ih.1, ih.2]
        | vInt i =>
          have ih := replaceSelected_spec rest repl
          simp [replaceSelected, collectTexts, hk, he, ih.1, ih.2]
        | vBool b =>
          have ih := replaceSelected_spec rest repl
          simp [replaceSelected, collectTexts, hk, he, ih.1, ih.2]
      · have ih := replaceSelected_spec rest repl
        simp [replaceSelected, collectTexts, hk, he, ih.1, ih.2]

theorem replaceExtra_keys :
    ∀ (ex : TomlTable) (repl : List String),
      ((replaceExtra ex repl).1).map Prod.fst = ex.map Prod.fst
  | [], _ => rfl
  | (k, v) :: rest, repl => by
    simp only [replaceExtra, List.map_cons]
    rw [replaceExtra_keys rest _]

theorem replaceSelected_keys :
    ∀ (root : TomlTable) (repl : List String),
      ((replaceSelected root repl).1).map Prod.fst = root.map Prod.fst
  | [], _ => rfl
  | (k, v) :: rest, repl => by
    simp only [replaceSelected, List.map_cons]
    rw [replaceSelected_keys rest _]

theorem replaceExtra_unselected :
    ∀ (ex : TomlTable) (repl : List String) (j : Nat) (k2 : String) (v2 : Toml),
      ex[j]? = some (k2, v2) → k2 ≠ "time" → ((replaceExtra ex repl).1)[j]? = some (k2, v2)
  | [], _, j, _, _, h, _ => by simp at h
  | (k, v) :: rest, repl, 0, k2, v2, h, hne => by
    simp only [List.getElem?_cons_zero, Option.some_inj] at h
    injection h with h1 h2
    subst h1
    subst h2
    simp [replaceExtra, hne]
  | (k, v) :: rest, repl, j + 1, k2, v2, h, hne => by
    simp only [List.getElem?_cons_succ] at h
    simp only [replaceExtra, List.getElem?_cons_succ]
    exact replaceExtra_unselected rest _ j k2 v2 h hne

theorem replaceSelected_unselected :
    ∀ (root : TomlTable) (repl : List String) (i : Nat) (k : String) (v : Toml),
      root[i]? = some (k, v) → k ≠ "title" → k ≠ "description" → k ≠ "extra" →
      ((replaceSelected root repl).1)[i]? = some (k, v)
  | [], _, i, _, _, h, _, _, _ => by simp at h
  | (k0, v0) :: rest, repl, 0, k, v, h, h1, h2, h3 => by
    simp only [List.getElem?_cons_zero, Option.some_inj] at h
    injection h with e1 e2
    subst e1
    subst e2
    simp [replaceSelected, h1, h2, h3]
  | (k0, v0) :: rest, repl, i + 1, k, v, h, h1, h2, h3 => by
    simp only [List.getElem?_cons_succ] at h
    simp only [replaceSelected, List.getElem?_cons_succ]
    exact replaceSelected_unselected rest _ i k v h h1 h2 h3

theorem replaceSelected_nonstring :
    ∀ (root : TomlTable) (repl : List String) (i : Nat) (k : String) (v : Toml),
      root[i]? = some (k, v) → (k = "title" ∨ k = "description") →
      (∀ s, v ≠ Toml.vStr s) → ((replaceSelected root repl).1)[i]? = some (k, v)
  | [], _, i, _, _, h, _, _ => by simp at h
  | (k0, v0) :: rest, repl, 0, k, v, h, hk, hv => by
    simp only [List.getElem?_cons_zero, Option.some_inj] at h
    injection h with e1 e2
    subst e1
    subst e2
    cases v0 with
    | vStr s => exact absurd rfl (hv s)
    | vInt n => simp [replaceSelected, hk]
    | vBool b => simp [replaceSelected, hk]
    | vTable t =>
      have hne : k0 ≠ "extra" := by rcases hk with hk | hk <;> simp [hk]
      simp [replaceSelected, hk, hne]
  | (k0, v0) :: rest, repl, i + 1, k, v, h, hk, hv => by
    simp only [List.getElem?_cons_succ] at h
    simp only [replaceSelected, List.getElem?_cons_succ]
    exact replaceSelected_nonstring rest _ i k v h hk hv

theorem replaceSelected_extra_structure :
    ∀ (root : TomlTable) (repl : List String) (i : Nat) (ex : TomlTable),
      root[i]? = some ("extra", Toml.vTable ex) →
      ∃ ex' : TomlTable, ((replaceSelected root repl).1)[i]? = some ("extra", Toml.vTable ex')
        ∧ ex'.map Prod.fst = ex.map Prod.fst
        ∧ ∀ (j : Nat) (k2 : String) (v2 : Toml),
            ex[j]? = some (k2, v2) → k2 ≠ "time" → ex'[j]? = some (k2, v2)
  | [], _, i, _, h => by simp at h
  | (k0, v0) :: rest, repl, 0, ex, h => by
    simp only [List.getElem?_cons_zero, Option.some_inj] at h
    injection h with e1 e2
    subst e1
    subst e2
    refine ⟨(replaceExtra ex repl).1, ?_, replaceExtra_keys ex repl,
      fun j k2 v2 hj hne => replaceExtra_unselected ex repl j k2 v2 hj hne⟩
    simp [replaceSelected]
  | (k0, v0) :: rest, repl, i + 1, ex, h => by
    simp only [List.getElem?_cons_succ] at h
    simp only [replaceSelected, List.getElem?_cons_succ]
    exact replaceSelected_extra_structure rest _ i ex h

theorem translate_toml_ok (cfg : DeeplConfig) (p : Provider) (root : TomlTable)
    (tv : List String) (hfree : cfg.is_free_api_key = false)
    (hp : p.translateStrings (collectTexts root) = .ok tv) :
    translate_toml cfg p root
      = (.ok (replaceSelected root tv).1, [Event.submitStrings (collectTexts root)]) := by
  unfold translate_toml
  rw [checkStep_not_free cfg p _ hfree, hp]
  rfl

/-- Claim C8: front-matter translation is field-selective.  With a
same-length provider response, `translate_toml` succeeds, submits exactly
the string values of top-level `title`/`description` and of `extra.time`,
replaces exactly those values by the response, and leaves every other key,
value and the table structure unchanged (keys in order, non-selected
entries untouched, non-string `title`/`description` values untouched, and
inside `extra` every entry other than `time` untouched). -/
theorem c8_toml_field_selective (cfg : DeeplConfig) (p : Provider) (root : TomlTable)
    (tv : List String) (hfree : cfg.is_free_api_key = false)
    (hp : p.translateStrings (collectTexts root) = .ok tv)
    (hlen : tv.length = (collectTexts root).length) :
    translate_toml cfg p root
        = (.ok (replaceSelected root tv).1, [Event.submitStrings (collectTexts root)])
    ∧ collectTexts (replaceSelected root tv).1 = tv
    ∧ ((replaceSelected root tv).1).map Prod.fst = root.map Prod.fst
    ∧ (∀ (i : Nat) (k : String) (v : Toml),
        root[i]? = some (k, v) → k ≠ "title" → k ≠ "description" → k ≠ "extra" →
        ((replaceSelected root tv).1)[i]? = some (k, v))
    ∧ (∀ (i : Nat) (k : String) (v : Toml),
        root[i]? = some (k, v) → (k = "title" ∨ k = "description") →
        (∀ s, v ≠ Toml.vStr s) → ((replaceSelected root tv).1)[i]? = some (k, v))
    ∧ (∀ (i : Nat) (ex : TomlTable), root[i]? = some ("extra", Toml.vTable ex) →
        ∃ ex' : TomlTable, ((replaceSelected root tv).1)[i]? = some ("extra", Toml.vTable ex')
          ∧ ex'.map Prod.fst = ex.map Prod.fst
          ∧ ∀ (j : Nat) (k2 : String) (v2 : Toml),
              ex[j]? = some (k2, v2) → k2 ≠ "time" → ex'[j]? = some (k2, v2)) := by
  refine ⟨translate_toml_ok cfg p root tv hfree hp, ?_, replaceSelected_keys root tv,
    fun i k v h h1 h2 h3 => replaceSelected_unselected root tv i k v h h1 h2 h3,
    fun i k v h hk hv => replaceSelected_nonstring root tv i k v h hk hv,
    fun i ex h => replaceSelected_extra_structure root tv i ex h⟩
  rw [(replaceSelected_spec root tv).1, ← hlen, List.take_length,
    List.drop_eq_nil_of_le (Nat.le_of_eq hlen.symm), List.append_nil]

/-- Claim C8 (witness). -/
theorem c8_witness :
    translate_toml cfgPro pBang rootSample
      = (.ok (replaceSelected rootSample ("D!" :: "T1!" :: "T!" :: [])).1,
          [Event.submitStrings (collectTexts rootSample)]) :=
  (c8_toml_field_selective cfgPro pBang rootSample ("D!" :: "T1!" :: "T!" :: [])
    (by decide) rfl (by decide)).1

/-- Claim C10: when the provider returns fewer strings than were submitted
for the front matter, `translate_toml` still returns `Ok`: the first `k`
selected values (in iteration order) receive the `k` response strings and
the remaining selected values keep their original text — no length
mismatch error is raised. -/
theorem c10_short_response (cfg : DeeplConfig) (p : Provider) (root : TomlTable)
    (tv : List String) (hfree : cfg.is_free_api_key = false)
    (hp : p.translateStrings (collectTexts root) = .ok tv)
    (hlt : tv.length < (collectTexts root).length) :
    translate_toml cfg p root
        = (.ok (replaceSelected root tv).1, [Event.submitStrings (collectTexts root)])
    ∧ collectTexts (replaceSelected root tv).1
        = tv ++ (collectTexts root).drop tv.length := by
  refine ⟨translate_toml_ok cfg p root tv hfree hp, ?_⟩
  rw [(replaceSelected_spec root tv).1, List.take_of_length_le (le_of_lt hlt)]

/-- Claim C10 (witness). -/
theorem c10_witness :
    translate_toml cfgPro pShort rootSample
        = (.ok (replaceSelected rootSample ("X" :: [])).1,
            [Event.submitStrings (collectTexts rootSample)])
    ∧ collectTexts (replaceSelected rootSample ("X" :: [])).1
        = ("X" :: []) ++ (collectTexts rootSample).drop ("X" :: []).length :=
  c10_short_response cfgPro pShort rootSample ("X" :: []) (by decide) rfl (by decide)

theorem startsL_self_append : ∀ (pat z : List Char), startsL pat (pat ++ z) = true
  | [], _ => rfl
  | p :: ps, z => by
    simp only [List.cons_append, startsL, if_pos rfl]
    exact startsL_self_append ps z

theorem bAnd_left {a b : Bool} (h : (a && b) = true) : a = true :=
  ((Bool.and_eq_true a b) ▸ h).1

theorem bAnd_right {a b : Bool} (h : (a && b) = true) : b = true :=
  ((Bool.and_eq_true a b) ▸ h).2

theorem startsL_append_of_le : ∀ (pat a b : List Char),
    pat.length ≤ a.length → startsL pat (a ++ b) = startsL pat a
  | [], _, _, _ => rfl
  | p :: ps, [], b, h => by simp at h
  | p :: ps, x :: a', b, h => by
    show (if p = x then startsL ps (a' ++ b) else false) = (if p = x then startsL ps a' else false)
    by_cases hpx : p = x
    · rw [if_pos hpx, if_pos hpx,
        startsL_append_of_le ps a' b (by simp only [List.length_cons] at h; omega)]
    · rw [if_neg hpx, if_neg hpx]

theorem splitUntil_round : ∀ (pat lit rest : List Char), pat ≠ [] →
    noPreMatch pat lit = true → splitUntil pat (lit ++ (pat ++ rest)) = some (lit, rest)
  | pat, [], rest, hne, _ => by
    cases pat with
    | nil => exact absurd rfl hne
    | cons p ps =>
      show (if startsL (p :: ps) ((p :: ps) ++ rest) then
          some (([] : List Char), ((p :: ps) ++ rest).drop (p :: ps).length)
        else
          match splitUntil (p :: ps) (ps ++ rest) with
          | some q => some (p :: q.1, q.2)
          | none => none) = some ([], rest)
      rw [if_pos (by rw [startsL_self_append (p :: ps) rest]), List.drop_left]
  | pat, c :: lit', rest, hne, hnp => by
    have h1 : startsL pat ((c :: lit') ++ pat) = false := by
      have h := bAnd_left (show (!startsL pat ((c :: lit') ++ pat)
          && noPreGo pat lit'.length (lit' ++ pat)) = true from hnp)
      simpa using h
    have h2 : noPreMatch pat lit' = true :=
      bAnd_right (show (!startsL pat ((c :: lit') ++ pat)
        && noPreGo pat lit'.length (lit' ++ pat)) = true from hnp)
    have h3 : startsL pat (c :: (lit' ++ (pat ++ rest))) = false := by
      have hlen : pat.length ≤ ((c :: lit') ++ pat).length := by
        simp only [List.length_append, List.length_cons]
        omega
      have hext := startsL_append_of_le pat ((c :: lit') ++ pat) rest hlen
      rw [h1] at hext
      simpa [List.append_assoc] using hext
    show (if startsL pat (c :: (lit' ++ (pat ++ rest))) then
        some (([] : List Char), (c :: (lit' ++ (pat ++ rest))).drop pat.length)
      else
        match splitUntil pat (lit' ++ (pat ++ rest)) with
        | some q => some (c :: q.1, q.2)
        | none => none) = some (c :: lit', rest)
    rw [if_neg (by simp [h3]), splitUntil_round pat lit' rest hne h2]

theorem escapeChar_length_pos (c : Char) : 1 ≤ (escapeChar c).length := by
  unfold escapeChar
  by_cases h1 : c = '&'
  · simp [h1]
  · by_cases h2 : c = '<'
    · simp [h1, h2]
    · by_cases h3 : c = '>'
      · simp [h1, h2, h3]
      · simp [h1, h2, h3]

theorem wf_head (x : Inline) (ys : List Inline) (h : wfInlines (x :: ys) = true) :
    wfInline x = true := by
  cases ys with
  | nil => exact h
  | cons y ys' =>
    unfold wfInlines at h
    exact bAnd_left (bAnd_left h)

theorem wf_tail (x : Inline) (ys : List Inline) (h : wfInlines (x :: ys) = true) :
    wfInlines ys = true := by
  cases ys with
  | nil => rfl
  | cons y ys' =>
    unfold wfInlines at h
    exact bAnd_right h

theorem wf_adj (x y : Inline) (ys : List Inline) (h : wfInlines (x :: y :: ys) = true) :
    (isTextInline x && isTextInline y) = false := by
  unfold wfInlines at h
  have hb := bAnd_right (bAnd_left h)
  cases hx : (isTextInline x && isTextInline y) with
  | false => rfl
  | true => rw [hx] at hb; exact absurd hb (by decide)

theorem wf_text_head_adj (t : List Char) (more : List Inline)
    (h : wfInlines (Inline.text t :: more) = true) : headIsText more = false := by
  cases more with
  | nil => rfl
  | cons m ms =>
    have h2 := wf_adj (Inline.text t) m ms h
    cases m
    case text t2 => simp [isTextInline] at h2
    all_goals rfl

theorem wf_text_replace (t t' : List Char) (more : List Inline) (ht : t' ≠ [])
    (h : wfInlines (Inline.text t :: more) = true) :
    wfInlines (Inline.text t' :: more) = true := by
  have hne : (!(t'.isEmpty)) = true := by cases t' with
    | nil => exact absurd rfl ht
    | cons a b => rfl
  cases more with
  | nil => exact hne
  | cons m ms =>
    unfold wfInlines at h ⊢
    have h1 := bAnd_right (bAnd_left h)
    have h2 := bAnd_right h
    rw [Bool.and_eq_true, Bool.and_eq_true]
    exact ⟨⟨hne, h1⟩, h2⟩

theorem consChar_not_headText (c : Char) (ms : List Inline) (r : List Char)
    (h : headIsText ms = false) :
    consChar c (some (ms, r)) = some (Inline.text (c :: []) :: ms, r) := by
  match ms with
  | [] => rfl
  | Inline.text t :: more => simp [headIsText] at h
  | Inline.emph i :: more => rfl
  | Inline.strong i :: more => rfl
  | Inline.strike i :: more => rfl
  | Inline.codeSpan l :: more => rfl
  | Inline.link d t i :: more => rfl
  | Inline.image d t a :: more => rfl
  | Inline.rawHtmlInline l :: more => rfl
  | Inline.softBreak :: more => rfl
  | Inline.lineBreak :: more => rfl

theorem consChar_text (c : Char) (t : List Char) (more : List Inline) (r : List Char) :
    consChar c (some (Inline.text t :: more, r)) = some (Inline.text (c :: t) :: more, r) :=
  rfl

theorem startsL_cons_ne (p : Char) (ps : List Char) (c : Char) (cs : List Char) (h : p ≠ c) :
    startsL (p :: ps) (c :: cs) = false := by
  show (if p = c then startsL ps cs else false) = false
  rw [if_neg h]

theorem isStop_cons_ne (c : Char) (cs : List Char) (h : c ≠ '<') :
    isStop (c :: cs) = false := by
  show (List.isEmpty (c :: cs) || startsL ('<' :: '/' :: []) (c :: cs)) = false
  rw [startsL_cons_ne '<' _ c _ (fun he => h he.symm)]
  rfl

theorem digitChar10_val (k : Nat) (h : k < 10) : (digitChar10 k).toNat - 48 = k := by
  interval_cases k <;> decide

theorem digitChar10_ne_quote (k : Nat) : digitChar10 k ≠ '"' := by
  unfold digitChar10
  split <;> decide

theorem charsNat_append_digit (a : List Char) (d : Char) :
    charsNat (a ++ (d :: [])) = charsNat a * 10 + (d.toNat - 48) := by
  induction a with
  | nil => simp [charsNat]
  | cons c cs ihc =>
    show (c.toNat - 48) * 10 ^ (cs ++ (d :: [])).length + charsNat (cs ++ (d :: []))
      = ((c.toNat - 48) * 10 ^ cs.length + charsNat cs) * 10 + (d.toNat - 48)
    rw [ihc]
    simp [List.length_append, pow_succ]
    ring

theorem charsNat_natCharsGo (fuel : Nat) : ∀ (n : Nat), n < fuel →
    charsNat (natCharsGo fuel n) = n := by
  induction fuel with
  | zero => intro n hn; omega
  | succ f ihf =>
    intro n hn
    show charsNat (if n < 10 then digitChar10 n :: []
      else natCharsGo f (n / 10) ++ (digitChar10 (n % 10) :: [])) = n
    by_cases h10 : n < 10
    · rw [if_pos h10]
      simp [charsNat, digitChar10_val n h10]
    · rw [if_neg h10]
      rw [charsNat_append_digit, ihf (n / 10) (by omega), digitChar10_val (n % 10) (by omega)]
      omega

theorem natCharsGo_mem_digit (fuel : Nat) : ∀ (n : Nat), ∀ c ∈ natCharsGo fuel n, c ≠ '"' := by
  induction fuel with
  | zero => intro n c hc; simp [natCharsGo] at hc
  | succ f ihf =>
    intro n c hc
    rw [show natCharsGo (f + 1) n = (if n < 10 then digitChar10 n :: []
      else natCharsGo f (n / 10) ++ (digitChar10 (n % 10) :: [])) from rfl] at hc
    by_cases h10 : n < 10
    · rw [if_pos h10] at hc
      simp at hc
      rw [hc]
      exact digitChar10_ne_quote n
    · rw [if_neg h10] at hc
      rw [List.mem_append] at hc
      cases hc with
      | inl h1 => exact ihf (n / 10) c h1
      | inr h2 =>
        simp at h2
        rw [h2]
        exact digitChar10_ne_quote (n % 10)

theorem noPre_single (q : Char) : ∀ (lit : List Char), (∀ c ∈ lit, c ≠ q) →
    noPreMatch (q :: []) lit = true
  | [], _ => rfl
  | c :: cs, h => by
    have hq : q ≠ c := fun he => (h c (by simp)) he.symm
    show (!startsL (q :: []) (c :: (cs ++ (q :: [])))
      && noPreGo (q :: []) cs.length (cs ++ (q :: []))) = true
    rw [startsL_cons_ne q [] c _ hq]
    show (true && noPreGo (q :: []) cs.length (cs ++ (q :: []))) = true
    rw [Bool.true_and]
    exact noPre_single q cs (fun c2 hc2 => h c2 (by simp [hc2]))

theorem startChars_noPre (st : Option Nat) : noPreMatch ('"' :: []) (startChars st) = true := by
  cases st with
  | none => rfl
  | some n => exact noPre_single '"' (natCharsGo (n + 1) n) (natCharsGo_mem_digit (n + 1) n)

theorem startOfChars_startChars (st : Option Nat) : startOfChars (startChars st) = st := by
  cases st with
  | none => rfl
  | some n =>
    show startOfChars (natCharsGo (n + 1) n) = some n
    have hne : natCharsGo (n + 1) n ≠ [] := by
      show (if n < 10 then digitChar10 n :: []
        else natCharsGo n (n / 10) ++ (digitChar10 (n % 10) :: [])) ≠ []
      by_cases h10 : n < 10
      · rw [if_pos h10]; simp
      · rw [if_neg h10]; simp
    unfold startOfChars
    rw [if_neg hne, charsNat_natCharsGo (n + 1) n (Nat.lt_succ_self n)]

theorem tightChar_or (b : Bool) : tightChar b = '1' ∨ tightChar b = '0' := by
  cases b with
  | false => exact Or.inr rfl
  | true => exact Or.inl rfl

theorem tightChar_eq (b : Bool) : (tightChar b == '1') = b := by
  cases b <;> decide

theorem alignChar_ne_quote (a : Alignment) : alignChar a ≠ '"' := by
  cases a <;> decide

theorem aligns_noPre (als : List Alignment) :
    noPreMatch ('"' :: []) (als.map alignChar) = true := by
  refine noPre_single '"' (als.map alignChar) ?_
  intro c hc
  rw [List.mem_map] at hc
  obtain ⟨a, _, ha⟩ := hc
  rw [← ha]
  exact alignChar_ne_quote a

theorem alignsOfChars_round (als : List Alignment) :
    alignsOfChars (als.map alignChar) = some als := by
  induction als with
  | nil => rfl
  | cons a rest ihr =>
    show (match charAlign (alignChar a), alignsOfChars (rest.map alignChar) with
      | some a2, some l2 => some (a2 :: l2)
      | _, _ => none) = some (a :: rest)
    rw [ihr, show charAlign (alignChar a) = some a from by cases a <;> rfl]

theorem parseInlines_succ (n : Nat) (s : List Char) :
    parseInlines (n + 1) s
      = (if isStop s then some (([] : List Inline), s)
        else if startsL openEm s then
          match parseInlines n (s.drop 4) with
          | none => none
          | some q =>
            if startsL closeEm q.2 then
              match parseInlines n (q.2.drop 5) with
              | none => none
              | some r => some (Inline.emph q.1 :: r.1, r.2)
            else none
        else if startsL openStrong s then
          match parseInlines n (s.drop 8) with
          | none => none
          | some q =>
            if startsL closeStrong q.2 then
              match parseInlines n (q.2.drop 9) with
              | none => none
              | some r => some (Inline.strong q.1 :: r.1, r.2)
            else none
        else if startsL openDel s then
          match parseInlines n (s.drop 5) with
          | none => none
          | some q =>
            if startsL closeDel q.2 then
              match parseInlines n (q.2.drop 6) with
              | none => none
              | some r => some (Inline.strike q.1 :: r.1, r.2)
            else none
        else if startsL openCode s then
          match splitUntil closeCode (s.drop 6) with
          | none => none
          | some q =>
            match parseInlines n q.2 with
            | none => none
            | some r => some (Inline.codeSpan q.1 :: r.1, r.2)
        else if startsL openA s then
          match splitUntil ('"' :: []) (s.drop 9) with
          | none => none
          | some dq =>
            if startsL attrTitle dq.2 then
              match splitUntil ('"' :: []) (dq.2.drop 8) with
              | none => none
              | some tq =>
                if startsL ('>' :: []) tq.2 then
                  match parseInlines n (tq.2.drop 1) with
                  | none => none
                  | some q =>
                    if startsL closeA q.2 then
                      match parseInlines n (q.2.drop 4) with
                      | none => none
                      | some r => some (Inline.link dq.1 tq.1 q.1 :: r.1, r.2)
                    else none
                else none
            else none
        else if startsL openImg s then
          match splitUntil ('"' :: []) (s.drop 10) with
          | none => none
          | some dq =>
            if startsL attrTitle dq.2 then
              match splitUntil ('"' :: []) (dq.2.drop 8) with
              | none => none
              | some tq =>
                if startsL attrAlt tq.2 then
                  match splitUntil ('"' :: []) (tq.2.drop 6) with
                  | none => none
                  | some aq =>
                    if startsL ('/' :: '>' :: []) aq.2 then
                      match parseInlines n (aq.2.drop 2) with
                      | none => none
                      | some r => some (Inline.image dq.1 tq.1 aq.1 :: r.1, r.2)
                    else none
                else none
            else none
        else if startsL openEmbed s then
          match splitUntil closeEmbed (s.drop 7) with
          | none => none
          | some q =>
            match parseInlines n q.2 with
            | none => none
            | some r => some (Inline.rawHtmlInline q.1 :: r.1, r.2)
        else if startsL sbrTag s then
          match parseInlines n (s.drop 6) with
          | none => none
          | some r => some (Inline.softBreak :: r.1, r.2)
        else if startsL lbrTag s then
          match parseInlines n (s.drop 6) with
          | none => none
          | some r => some (Inline.lineBreak :: r.1, r.2)
        else
          match s with
          | [] => none
          | c :: cs =>
            if c = '&' then
              match readEntity cs with
              | none => none
              | some e => consChar e.1 (parseInlines n e.2)
            else if c = '<' then none
            else consChar c (parseInlines n cs)) := rfl

theorem parseInlines_stop (n : Nat) (s : List Char) (h : isStop s = true) :
    parseInlines (n + 1) s = some ([], s) := by
  rw [parseInlines_succ]
  rw [if_pos (by rw [h])]

theorem parseInlines_em_step (n : Nat) (z : List Char) :
    parseInlines (n + 1) (openEm ++ z)
      = (match parseInlines n z with
        | none => none
        | some q =>
          if startsL closeEm q.2 then
            match parseInlines n (q.2.drop 5) with
            | none => none
            | some r => some (Inline.emph q.1 :: r.1, r.2)
          else none) := rfl

theorem parseInlines_strong_step (n : Nat) (z : List Char) :
    parseInlines (n + 1) (openStrong ++ z)
      = (match parseInlines n z with
        | none => none
        | some q =>
          if startsL closeStrong q.2 then
            match parseInlines n (q.2.drop 9) with
            | none => none
            | some r => some (Inline.strong q.1 :: r.1, r.2)
          else none) := rfl

theorem parseInlines_del_step (n : Nat) (z : List Char) :
    parseInlines (n + 1) (openDel ++ z)
      = (match parseInlines n z with
        | none => none
        | some q =>
          if startsL closeDel q.2 then
            match parseInlines n (q.2.drop 6) with
            | none => none
            | some r => some (Inline.strike q.1 :: r.1, r.2)
          else none) := rfl

theorem parseInlines_code_step (n : Nat) (z : List Char) :
    parseInlines (n + 1) (openCode ++ z)
      = (match splitUntil closeCode z with
        | none => none
        | some q =>
          match parseInlines n q.2 with
          | none => none
          | some r => some (Inline.codeSpan q.1 :: r.1, r.2)) := rfl

theorem parseInlines_a_step (n : Nat) (z : List Char) :
    parseInlines (n + 1) (openA ++ z)
      = (match splitUntil ('"' :: []) z with
        | none => none
        | some dq =>
          if startsL attrTitle dq.2 then
            match splitUntil ('"' :: []) (dq.2.drop 8) with
            | none => none
            | some tq =>
              if startsL ('>' :: []) tq.2 then
                match parseInlines n (tq.2.drop 1) with
                | none => none
                | some q =>
                  if startsL closeA q.2 then
                    match parseInlines n (q.2.drop 4) with
                    | none => none
                    | some r => some (Inline.link dq.1 tq.1 q.1 :: r.1, r.2)
                  else none
              else none
          else none) := rfl

theorem parseInlines_img_step (n : Nat) (z : List Char) :
    parseInlines (n + 1) (openImg ++ z)
      = (match splitUntil ('"' :: []) z with
        | none => none
        | some dq =>
          if startsL attrTitle dq.2 then
            match splitUntil ('"' :: []) (dq.2.drop 8) with
            | none => none
            | some tq =>
              if startsL attrAlt tq.2 then
                match splitUntil ('"' :: []) (tq.2.drop 6) with
                | none => none
                | some aq =>
                  if startsL ('/' :: '>' :: []) aq.2 then
                    match parseInlines n (aq.2.drop 2) with
                    | none => none
                    | some r => some (Inline.image dq.1 tq.1 aq.1 :: r.1, r.2)
                  else none
              else none
          else none) := rfl

theorem parseInlines_embed_step (n : Nat) (z : List Char) :
    parseInlines (n + 1) (openEmbed ++ z)
      = (match splitUntil closeEmbed z with
        | none => none
        | some q =>
          match parseInlines n q.2 with
          | none => none
          | some r => some (Inline.rawHtmlInline q.1 :: r.1, r.2)) := rfl

theorem parseInlines_sbr_step (n : Nat) (z : List Char) :
    parseInlines (n + 1) (sbrTag ++ z)
      = (match parseInlines n z with
        | none => none
        | some r => some (Inline.softBreak :: r.1, r.2)) := rfl

theorem parseInlines_lbr_step (n : Nat) (z : List Char) :
    parseInlines (n + 1) (lbrTag ++ z)
      = (match parseInlines n z with
        | none => none
        | some r => some (Inline.lineBreak :: r.1, r.2)) := rfl

theorem parseInlines_amp_step (n : Nat) (z : List Char) :
    parseInlines (n + 1) ('&' :: 'a' :: 'm' :: 'p' :: ';' :: z)
      = consChar '&' (parseInlines n z) := rfl

theorem parseInlines_lt_step (n : Nat) (z : List Char) :
    parseInlines (n + 1) ('&' :: 'l' :: 't' :: ';' :: z)
      = consChar '<' (parseInlines n z) := rfl

theorem parseInlines_gt_step (n : Nat) (z : List Char) :
    parseInlines (n + 1) ('&' :: 'g' :: 't' :: ';' :: z)
      = consChar '>' (parseInlines n z) := rfl

theorem parseInlines_char_step (n : Nat) (c : Char) (z : List Char)
    (hamp : c ≠ '&') (hlt : c ≠ '<') :
    parseInlines (n + 1) (c :: z) = consChar c (parseInlines n z) := by
  have hsym : ('<' : Char) ≠ c := fun he => hlt he.symm
  have h1 : isStop (c :: z) = false := isStop_cons_ne c z hlt
  have h2 : startsL openEm (c :: z) = false := by
    rw [show openEm = '<' :: 'e' :: 'm' :: '>' :: [] from rfl]
    exact startsL_cons_ne _ _ _ _ hsym
  have h3 : startsL openStrong (c :: z) = false := by
    rw [show openStrong = '<' :: 's' :: 't' :: 'r' :: 'o' :: 'n' :: 'g' :: '>' :: [] from rfl]
    exact startsL_cons_ne _ _ _ _ hsym
  have h4 : startsL openDel (c :: z) = false := by
    rw [show openDel = '<' :: 'd' :: 'e' :: 'l' :: '>' :: [] from rfl]
    exact startsL_cons_ne _ _ _ _ hsym
  have h5 : startsL openCode (c :: z) = false := by
    rw [show openCode = '<' :: 'c' :: 'o' :: 'd' :: 'e' :: '>' :: [] from rfl]
    exact startsL_cons_ne _ _ _ _ hsym
  have h6 : startsL openA (c :: z) = false := by
    rw [show openA = '<' :: 'a' :: ' ' :: 'h' :: 'r' :: 'e' :: 'f' :: '=' :: '"' :: [] from rfl]
    exact startsL_cons_ne _ _ _ _ hsym
  have h7 : startsL openImg (c :: z) = false := by
    rw [show openImg
      = '<' :: 'i' :: 'm' :: 'g' :: ' ' :: 's' :: 'r' :: 'c' :: '=' :: '"' :: [] from rfl]
    exact startsL_cons_ne _ _ _ _ hsym
  have h8 : startsL openEmbed (c :: z) = false := by
    rw [show openEmbed = '<' :: 'e' :: 'm' :: 'b' :: 'e' :: 'd' :: '>' :: [] from rfl]
    exact startsL_cons_ne _ _ _ _ hsym
  have h9 : startsL sbrTag (c :: z) = false := by
    rw [show sbrTag = '<' :: 's' :: 'b' :: 'r' :: '/' :: '>' :: [] from rfl]
    exact startsL_cons_ne _ _ _ _ hsym
  have h10 : startsL lbrTag (c :: z) = false := by
    rw [show lbrTag = '<' :: 'l' :: 'b' :: 'r' :: '/' :: '>' :: [] from rfl]
    exact startsL_cons_ne _ _ _ _ hsym
  rw [parseInlines_succ]
  simp only [h1, h2, h3, h4, h5, h6, h7, h8, h9, h10, Bool.false_eq_true, if_false]
  show (if c = '&' then
      match readEntity z with
      | none => none
      | some e => consChar e.1 (parseInlines n e.2)
    else if c = '<' then none
    else consChar c (parseInlines n z)) = consChar c (parseInlines n z)
  rw [if_neg hamp, if_neg hlt]

theorem parseInlines_text_finish (n : Nat) (c : Char) (t' : List Char) (more : List Inline)
    (rest : List Char)
    (hIH : ∀ (ys : List Inline) (r2 : List Char), wfInlines ys = true → isStop r2 = true →
      (serInlines ys).length < n → parseInlines n (serInlines ys ++ r2) = some (ys, r2))
    (hadj : headIsText more = false) (hwm : wfInlines more = true)
    (hwf : wfInlines (Inline.text (c :: t') :: more) = true)
    (hstop : isStop rest = true)
    (hlenc : (escapeChars t' ++ serInlines more).length < n) :
    consChar c (parseInlines n ((escapeChars t' ++ serInlines more) ++ rest))
      = some (Inline.text (c :: t') :: more, rest) := by
  cases t' with
  | nil =>
    have h1 := hIH more rest hwm hstop (by simpa [escapeChars] using hlenc)
    rw [show (escapeChars [] ++ serInlines more) ++ rest = serInlines more ++ rest from by
      simp [escapeChars]]
    rw [h1, consChar_not_headText c more rest hadj]
  | cons c2 t2 =>
    have hwf2 : wfInlines (Inline.text (c2 :: t2) :: more) = true :=
      wf_text_replace _ _ _ (by simp) hwf
    have h1 := hIH (Inline.text (c2 :: t2) :: more) rest hwf2 hstop
      (by simpa [serInlines, serInline] using hlenc)
    rw [show (escapeChars (c2 :: t2) ++ serInlines more) ++ rest
        = serInlines (Inline.text (c2 :: t2) :: more) ++ rest from by
      simp [serInlines, serInline]]
    rw [h1, consChar_text]

theorem parseInlines_round (n : Nat) :
    ∀ (xs : List Inline) (rest : List Char),
      wfInlines xs = true → isStop rest = true → (serInlines xs).length < n →
      parseInlines n (serInlines xs ++ rest) = some (xs, rest) := by
  induction n using Nat.strong_induction_on with
  | _ n ih =>
    intro xs rest hwf hstop hlen
    cases n with
    | zero => exact absurd hlen (Nat.not_lt_zero _)
    | succ n =>
      have hIH : ∀ (ys : List Inline) (r2 : List Char), wfInlines ys = true →
          isStop r2 = true → (serInlines ys).length < n →
          parseInlines n (serInlines ys ++ r2) = some (ys, r2) :=
        fun ys r2 => ih n (Nat.lt_succ_self n) ys r2
      cases xs with
      | nil =>
        simp only [serInlines, List.nil_append]
        exact parseInlines_stop n rest hstop
      | cons x more =>
        have hwm : wfInlines more = true := wf_tail _ _ hwf
        cases x with
        | text t =>
          cases t with
          | nil =>
            have hx := wf_head _ _ hwf
            simp [wfInline, List.isEmpty] at hx
          | cons c t' =>
            have hadj : headIsText more = false := wf_text_head_adj _ _ hwf
            have hlenc : (escapeChars t' ++ serInlines more).length < n := by
              have h5 := escapeChar_length_pos c
              have heq : (serInlines (Inline.text (c :: t') :: more)).length
                  = (escapeChar c).length + (escapeChars t' ++ serInlines more).length := by
                simp [serInlines, serInline, escapeChars, List.length_append]
              rw [heq] at hlen
              omega
            rw [show serInlines (Inline.text (c :: t') :: more) ++ rest
                = escapeChar c ++ ((escapeChars t' ++ serInlines more) ++ rest) from by
              simp [serInlines, serInline, escapeChars, List.append_assoc]]
            by_cases hamp : c = '&'
            · subst hamp
              rw [show escapeChar '&' ++ ((escapeChars t' ++ serInlines more) ++ rest)
                  = '&' :: 'a' :: 'm' :: 'p' :: ';'
                    :: ((escapeChars t' ++ serInlines more) ++ rest) from rfl]
              rw [parseInlines_amp_step]
              exact parseInlines_text_finish n '&' t' more rest hIH hadj hwm hwf hstop hlenc
            · by_cases hltc : c = '<'
              · subst hltc
                rw [show escapeChar '<' ++ ((escapeChars t' ++ serInlines more) ++ rest)
                    = '&' :: 'l' :: 't' :: ';'
                      :: ((escapeChars t' ++ serInlines more) ++ rest) from rfl]
                rw [parseInlines_lt_step]
                exact parseInlines_text_finish n '<' t' more rest hIH hadj hwm hwf hstop hlenc
              · by_cases hgtc : c = '>'
                · subst hgtc
                  rw [show escapeChar '>' ++ ((escapeChars t' ++ serInlines more) ++ rest)
                      = '&' :: 'g' :: 't' :: ';'
                        :: ((escapeChars t' ++ serInlines more) ++ rest) from rfl]
                  rw [parseInlines_gt_step]
                  exact parseInlines_text_finish n '>' t' more rest hIH hadj hwm hwf hstop hlenc
                · rw [show escapeChar c ++ ((escapeChars t' ++ serInlines more) ++ rest)
                      = c :: ((escapeChars t' ++ serInlines more) ++ rest) from by
                    simp [escapeChar, hamp, hltc, hgtc]]
                  rw [parseInlines_char_step n c _ hamp hltc]
                  exact parseInlines_text_finish n c t' more rest hIH hadj hwm hwf hstop hlenc
        | emph inner =>
          have hwi : wfInlines inner = true := wf_head _ _ hwf
          have hlens : (serInlines inner).length < n ∧ (serInlines more).length < n := by
            have heq : (serInlines (Inline.emph inner :: more)).length
                = 4 + ((serInlines inner).length + (5 + (serInlines more).length)) := by
              simp [serInlines, serInline, openEm, closeEm, List.length_append]
              omega
            rw [heq] at hlen
            omega
          rw [show serInlines (Inline.emph inner :: more) ++ rest
              = openEm ++ (serInlines inner ++ (closeEm ++ (serInlines more ++ rest))) from by
            simp [serInlines, serInline, List.append_assoc]]
          rw [parseInlines_em_step]
          rw [hIH inner (closeEm ++ (serInlines more ++ rest)) hwi rfl hlens.1]
          show (if startsL closeEm (closeEm ++ (serInlines more ++ rest)) then
              match parseInlines n ((closeEm ++ (serInlines more ++ rest)).drop 5) with
              | none => none
              | some r => some (Inline.emph inner :: r.1, r.2)
            else none) = some (Inline.emph inner :: more, rest)
          rw [if_pos (by rw [startsL_self_append])]
          rw [show (closeEm ++ (serInlines more ++ rest)).drop 5
              = serInlines more ++ rest from rfl]
          rw [hIH more rest hwm hstop hlens.2]
        | strong inner =>
          have hwi : wfInlines inner = true := wf_head _ _ hwf
          have hlens : (serInlines inner).length < n ∧ (serInlines more).length < n := by
            have heq : (serInlines (Inline.strong inner :: more)).length
                = 8 + ((serInlines inner).length + (9 + (serInlines more).length)) := by
              simp [serInlines, serInline, openStrong, closeStrong, List.length_append]
              omega
            rw [heq] at hlen
            omega
          rw [show serInlines (Inline.strong inner :: more) ++ rest
              = openStrong ++ (serInlines inner ++ (closeStrong ++ (serInlines more ++ rest)))
              from by simp [serInlines, serInline, List.append_assoc]]
          rw [parseInlines_strong_step]
          rw [hIH inner (closeStrong ++ (serInlines more ++ rest)) hwi rfl hlens.1]
          show (if startsL closeStrong (closeStrong ++ (serInlines more ++ rest)) then
              match parseInlines n ((closeStrong ++ (serInlines more ++ rest)).drop 9) with
              | none => none
              | some r => some (Inline.strong inner :: r.1, r.2)
            else none) = some (Inline.strong inner :: more, rest)
          rw [if_pos (by rw [startsL_self_append])]
          rw [show (closeStrong ++ (serInlines more ++ rest)).drop 9
              = serInlines more ++ rest from rfl]
          rw [hIH more rest hwm hstop hlens.2]
        | strike inner =>
          have hwi : wfInlines inner = true := wf_head _ _ hwf
          have hlens : (serInlines inner).length < n ∧ (serInlines more).length < n := by
            have heq : (serInlines (Inline.strike inner :: more)).length
                = 5 + ((serInlines inner).length + (6 + (serInlines more).length)) := by
              simp [serInlines, serInline, openDel, closeDel, List.length_append]
              omega
            rw [heq] at hlen
            omega
          rw [show serInlines (Inline.strike inner :: more) ++ rest
              = openDel ++ (serInlines inner ++ (closeDel ++ (serInlines more ++ rest))) from by
            simp [serInlines, serInline, List.append_assoc]]
          rw [parseInlines_del_step]
          rw [hIH inner (closeDel ++ (serInlines more ++ rest)) hwi rfl hlens.1]
          show (if startsL closeDel (closeDel ++ (serInlines more ++ rest)) then
              match parseInlines n ((closeDel ++ (serInlines more ++ rest)).drop 6) with
              | none => none
              | some r => some (Inline.strike inner :: r.1, r.2)
            else none) = some (Inline.strike inner :: more, rest)
          rw [if_pos (by rw [startsL_self_append])]
          rw [show (closeDel ++ (serInlines more ++ rest)).drop 6
              = serInlines more ++ rest from rfl]
          rw [hIH more rest hwm hstop hlens.2]
        | codeSpan l =>
          have hnp : noPreMatch closeCode l = true := wf_head _ _ hwf
          have hlens : (serInlines more).length < n := by
            have heq : (serInlines (Inline.codeSpan l :: more)).length
                = 6 + (l.length + (7 + (serInlines more).length)) := by
              simp [serInlines, serInline, openCode, closeCode, List.length_append]
              omega
            rw [heq] at hlen
            omega
          rw [show serInlines (Inline.codeSpan l :: more) ++ rest
              = openCode ++ (l ++ (closeCode ++ (serInlines more ++ rest))) from by
            simp [serInlines, serInline, List.append_assoc]]
          rw [parseInlines_code_step]
          rw [splitUntil_round closeCode l (serInlines more ++ rest) (by decide) hnp]
          show (match parseInlines n (serInlines more ++ rest) with
            | none => none
            | some r => some (Inline.codeSpan l :: r.1, r.2))
            = some (Inline.codeSpan l :: more, rest)
          rw [hIH more rest hwm hstop hlens]
        | link dest title inner =>
          have hw := wf_head _ _ hwf
          have hnd : noPreMatch ('"' :: []) dest = true := bAnd_left hw
          have hnt : noPreMatch ('"' :: []) title = true := bAnd_left (bAnd_right hw)
          have hwi : wfInlines inner = true := bAnd_right (bAnd_right hw)
          have hlens : (serInlines inner).length < n ∧ (serInlines more).length < n := by
            have heq : (serInlines (Inline.link dest title inner :: more)).length
                = 9 + (dest.length + (1 + (8 + (title.length
                    + (2 + ((serInlines inner).length + (4 + (serInlines more).length))))))) := by
              simp [serInlines, serInline, openA, attrTitle, closeA, List.length_append]
              omega
            rw [heq] at hlen
            omega
          rw [show serInlines (Inline.link dest title inner :: more) ++ rest
              = openA ++ (dest ++ (('"' :: []) ++ (attrTitle ++ (title ++ (('"' :: [])
                  ++ ('>' :: (serInlines inner
                    ++ (closeA ++ (serInlines more ++ rest))))))))) from by
            simp [serInlines, serInline, List.append_assoc]]
          rw [parseInlines_a_step]
          rw [splitUntil_round ('"' :: []) dest
            (attrTitle ++ (title ++ (('"' :: []) ++ ('>' :: (serInlines inner
              ++ (closeA ++ (serInlines more ++ rest))))))) (by decide) hnd]
          show (if startsL attrTitle (attrTitle ++ (title ++ (('"' :: [])
                ++ ('>' :: (serInlines inner ++ (closeA ++ (serInlines more ++ rest))))))) then
              match splitUntil ('"' :: []) ((attrTitle ++ (title ++ (('"' :: [])
                  ++ ('>' :: (serInlines inner
                    ++ (closeA ++ (serInlines more ++ rest))))))).drop 8) with
              | none => none
              | some tq =>
                if startsL ('>' :: []) tq.2 then
                  match parseInlines n (tq.2.drop 1) with
                  | none => none
                  | some q =>
                    if startsL closeA q.2 then
                      match parseInlines n (q.2.drop 4) with
                      | none => none
                      | some r => some (Inline.link dest tq.1 q.1 :: r.1, r.2)
                    else none
                else none
            else none) = some (Inline.link dest title inner :: more, rest)
          rw [if_pos (by rw [startsL_self_append])]
          rw [show ((attrTitle ++ (title ++ (('"' :: []) ++ ('>' :: (serInlines inner
              ++ (closeA ++ (serInlines more ++ rest))))))).drop 8)
              = title ++ (('"' :: []) ++ ('>' :: (serInlines inner
                ++ (closeA ++ (serInlines more ++ rest))))) from rfl]
          rw [splitUntil_round ('"' :: []) title
            ('>' :: (serInlines inner ++ (closeA ++ (serInlines more ++ rest))))
            (by decide) hnt]
          have hgt : startsL ('>' :: [])
              ('>' :: (serInlines inner ++ (closeA ++ (serInlines more ++ rest)))) = true := rfl
          show (if startsL ('>' :: [])
                ('>' :: (serInlines inner ++ (closeA ++ (serInlines more ++ rest)))) then
              match parseInlines n (('>' :: (serInlines inner
                  ++ (closeA ++ (serInlines more ++ rest)))).drop 1) with
              | none => none
              | some q =>
                if startsL closeA q.2 then
                  match parseInlines n (q.2.drop 4) with
                  | none => none
                  | some r => some (Inline.link dest title q.1 :: r.1, r.2)
                else none
            else none) = some (Inline.link dest title inner :: more, rest)
          rw [if_pos (by rw [hgt])]
          rw [show (('>' :: (serInlines inner
              ++ (closeA ++ (serInlines more ++ rest)))).drop 1)
              = serInlines inner ++ (closeA ++ (serInlines more ++ rest)) from rfl]
          rw [hIH inner (closeA ++ (serInlines more ++ rest)) hwi rfl hlens.1]
          show (if startsL closeA (closeA ++ (serInlines more ++ rest)) then
              match parseInlines n ((closeA ++ (serInlines more ++ rest)).drop 4) with
              | none => none
              | some r => some (Inline.link dest title inner :: r.1, r.2)
            else none) = some (Inline.link dest title inner :: more, rest)
          rw [if_pos (by rw [startsL_self_append])]
          rw [show (closeA ++ (serInlines more ++ rest)).drop 4
              = serInlines more ++ rest from rfl]
          rw [hIH more rest hwm hstop hlens.2]
        | image dest title alt =>
          have hw := wf_head _ _ hwf
          have hnd : noPreMatch ('"' :: []) dest = true := bAnd_left hw
          have hnt : noPreMatch ('"' :: []) title = true := bAnd_left (bAnd_right hw)
          have hna : noPreMatch ('"' :: []) alt = true := bAnd_right (bAnd_right hw)
          have hlens : (serInlines more).length < n := by
            have heq : (serInlines (Inline.image dest title alt :: more)).length
                = 10 + (dest.length + (1 + (8 + (title.length
                    + (1 + (6 + (alt.length + (3 + (serInlines more).length)))))))) := by
              simp [serInlines, serInline, openImg, attrTitle, attrAlt, List.length_append]
              omega
            rw [heq] at hlen
            omega
          rw [show serInlines (Inline.image dest title alt :: more) ++ rest
              = openImg ++ (dest ++ (('"' :: []) ++ (attrTitle ++ (title ++ (('"' :: [])
                  ++ (attrAlt ++ (alt ++ (('"' :: [])
                    ++ ('/' :: '>' :: (serInlines more ++ rest)))))))))) from by
            simp [serInlines, serInline, List.append_assoc]]
          rw [parseInlines_img_step]
          rw [splitUntil_round ('"' :: []) dest
            (attrTitle ++ (title ++ (('"' :: []) ++ (attrAlt ++ (alt ++ (('"' :: [])
              ++ ('/' :: '>' :: (serInlines more ++ rest)))))))) (by decide) hnd]
          show (if startsL attrTitle (attrTitle ++ (title ++ (('"' :: [])
                ++ (attrAlt ++ (alt ++ (('"' :: [])
                  ++ ('/' :: '>' :: (serInlines more ++ rest)))))))) then
              match splitUntil ('"' :: []) ((attrTitle ++ (title ++ (('"' :: [])
                  ++ (attrAlt ++ (alt ++ (('"' :: [])
                    ++ ('/' :: '>' :: (serInlines more ++ rest)))))))).drop 8) with
              | none => none
              | some tq =>
                if startsL attrAlt tq.2 then
                  match splitUntil ('"' :: []) (tq.2.drop 6) with
                  | none => none
                  | some aq =>
                    if startsL ('/' :: '>' :: []) aq.2 then
                      match parseInlines n (aq.2.drop 2) with
                      | none => none
                      | some r => some (Inline.image dest tq.1 aq.1 :: r.1, r.2)
                    else none
                else none
            else none) = some (Inline.image dest title alt :: more, rest)
          rw [if_pos (by rw [startsL_self_append])]
          rw [show ((attrTitle ++ (title ++ (('"' :: []) ++ (attrAlt ++ (alt ++ (('"' :: [])
              ++ ('/' :: '>' :: (serInlines more ++ rest)))))))).drop 8)
              = title ++ (('"' :: []) ++ (attrAlt ++ (alt ++ (('"' :: [])
                ++ ('/' :: '>' :: (serInlines more ++ rest)))))) from rfl]
          rw [splitUntil_round ('"' :: []) title
            (attrAlt ++ (alt ++ (('"' :: []) ++ ('/' :: '>' :: (serInlines more ++ rest)))))
            (by decide) hnt]
          show (if startsL attrAlt (attrAlt ++ (alt ++ (('"' :: [])
                ++ ('/' :: '>' :: (serInlines more ++ rest))))) then
              match splitUntil ('"' :: []) ((attrAlt ++ (alt ++ (('"' :: [])
                  ++ ('/' :: '>' :: (serInlines more ++ rest))))).drop 6) with
              | none => none
              | some aq =>
                if startsL ('/' :: '>' :: []) aq.2 then
                  match parseInlines n (aq.2.drop 2) with
                  | none => none
                  | some r => some (Inline.image dest title aq.1 :: r.1, r.2)
                else none
            else none) = some (Inline.image dest title alt :: more, rest)
          rw [if_pos (by rw [startsL_self_append])]
          rw [show ((attrAlt ++ (alt ++ (('"' :: [])
              ++ ('/' :: '>' :: (serInlines more ++ rest))))).drop 6)
              = alt ++ (('"' :: []) ++ ('/' :: '>' :: (serInlines more ++ rest))) from rfl]
          rw [splitUntil_round ('"' :: []) alt
            ('/' :: '>' :: (serInlines more ++ rest)) (by decide) hna]
          have hsl : startsL ('/' :: '>' :: [])
              ('/' :: '>' :: (serInlines more ++ rest)) = true := rfl
          show (if startsL ('/' :: '>' :: [])
                ('/' :: '>' :: (serInlines more ++ rest)) then
              match parseInlines n (('/' :: '>' :: (serInlines more ++ rest)).drop 2) with
              | none => none
              | some r => some (Inline.image dest title alt :: r.1, r.2)
            else none) = some (Inline.image dest title alt :: more, rest)
          rw [if_pos (by rw [hsl])]
          rw [show ('/' :: '>' :: (serInlines more ++ rest)).drop 2
              = serInlines more ++ rest from rfl]
          rw [hIH more rest hwm hstop hlens]
        | rawHtmlInline l =>
          have hnp : noPreMatch closeEmbed l = true := wf_head _ _ hwf
          have hlens : (serInlines more).length < n := by
            have heq : (serInlines (Inline.rawHtmlInline l :: more)).length
                = 7 + (l.length + (8 + (serInlines more).length)) := by
              simp [serInlines, serInline, openEmbed, closeEmbed, List.length_append]
              omega
            rw [heq] at hlen
            omega
          rw [show serInlines (Inline.rawHtmlInline l :: more) ++ rest
              = openEmbed ++ (l ++ (closeEmbed ++ (serInlines more ++ rest))) from by
            simp [serInlines, serInline, List.append_assoc]]
          rw [parseInlines_embed_step]
          rw [splitUntil_round closeEmbed l (serInlines more ++ rest) (by decide) hnp]
          show (match parseInlines n (serInlines more ++ rest) with
            | none => none
            | some r => some (Inline.rawHtmlInline l :: r.1, r.2))
            = some (Inline.rawHtmlInline l :: more, rest)
          rw [hIH more rest hwm hstop hlens]
        | softBreak =>
          have hlens : (serInlines more).length < n := by
            have heq : (serInlines (Inline.softBreak :: more)).length
                = 6 + (serInlines more).length := by
              simp [serInlines, serInline, sbrTag, List.length_append]
              omega
            rw [heq] at hlen
            omega
          rw [show serInlines (Inline.softBreak :: more) ++ rest
              = sbrTag ++ (serInlines more ++ rest) from by
            simp [serInlines, serInline, List.append_assoc]]
          rw [parseInlines_sbr_step]
          rw [hIH more rest hwm hstop hlens]
        | lineBreak =>
          have hlens : (serInlines more).length < n := by
            have heq : (serInlines (Inline.lineBreak :: more)).length
                = 6 + (serInlines more).length := by
              simp [serInlines, serInline, lbrTag, List.length_append]
              omega
            rw [heq] at hlen
            omega
          rw [show serInlines (Inline.lineBreak :: more) ++ rest
              = lbrTag ++ (serInlines more ++ rest) from by
            simp [serInlines, serInline, List.append_assoc]]
          rw [parseInlines_lbr_step]
          rw [hIH more rest hwm hstop hlens]

theorem parseBlocks_succ (n : Nat) (s : List Char) :
    parseBlocks (n + 1) s
      = (if isStop s then some (([] : List Block), s)
        else if startsL openP s then
          match parseInlines n (s.drop 3) with
          | none => none
          | some q =>
            if startsL closeP q.2 then
              match parseBlocks n (q.2.drop 4) with
              | none => none
              | some r => some (Block.para q.1 :: r.1, r.2)
            else none
        else if startsL openPreInfo s then
          match splitUntil ('"' :: []) (s.drop 11) with
          | none => none
          | some iq =>
            if startsL ('>' :: []) iq.2 then
              match splitUntil closePre (iq.2.drop 1) with
              | none => none
              | some lr =>
                match parseBlocks n lr.2 with
                | none => none
                | some r => some (Block.codeBlock iq.1 lr.1 :: r.1, r.2)
            else none
        else if startsL openBq s then
          match parseBlocks n (s.drop 12) with
          | none => none
          | some q =>
            if startsL closeBq q.2 then
              match parseBlocks n (q.2.drop 13) with
              | none => none
              | some r => some (Block.blockQuote q.1 :: r.1, r.2)
            else none
        else if startsL openOl s then
          match splitUntil ('"' :: []) (s.drop 11) with
          | none => none
          | some sq =>
            if startsL attrTight sq.2 then
              match sq.2.drop 8 with
              | [] => none
              | t :: r2 =>
                if t = '1' ∨ t = '0' then
                  if startsL ('"' :: '>' :: []) r2 then
                    match parseBlocks n (r2.drop 2) with
                    | none => none
                    | some q =>
                      if startsL closeOl q.2 then
                        match parseBlocks n (q.2.drop 5) with
                        | none => none
                        | some r =>
                          some (Block.list true (startOfChars sq.1) (t == '1') q.1 :: r.1, r.2)
                      else none
                  else none
                else none
            else none
        else if startsL openUl s then
          match s.drop 11 with
          | [] => none
          | t :: r2 =>
            if t = '1' ∨ t = '0' then
              if startsL ('"' :: '>' :: []) r2 then
                match parseBlocks n (r2.drop 2) with
                | none => none
                | some q =>
                  if startsL closeUl q.2 then
                    match parseBlocks n (q.2.drop 5) with
                    | none => none
                    | some r => some (Block.list false none (t == '1') q.1 :: r.1, r.2)
                  else none
              else none
            else none
        else if startsL openLi s then
          match parseBlocks n (s.drop 4) with
          | none => none
          | some q =>
            if startsL closeLi q.2 then
              match parseBlocks n (q.2.drop 5) with
              | none => none
              | some r => some (Block.listItem q.1 :: r.1, r.2)
            else none
        else if startsL openTable s then
          match splitUntil ('"' :: []) (s.drop 14) with
          | none => none
          | some aq =>
            match alignsOfChars aq.1 with
            | none => none
            | some als =>
              if startsL ('>' :: []) aq.2 then
                match parseBlocks n (aq.2.drop 1) with
                | none => none
                | some q =>
                  if startsL closeTable q.2 then
                    match parseBlocks n (q.2.drop 8) with
                    | none => none
                    | some r => some (Block.table als q.1 :: r.1, r.2)
                  else none
              else none
        else if startsL openTr s then
          match parseBlocks n (s.drop 4) with
          | none => none
          | some q =>
            if startsL closeTr q.2 then
              match parseBlocks n (q.2.drop 5) with
              | none => none
              | some r => some (Block.tableRow q.1 :: r.1, r.2)
            else none
        else if startsL openTh s then
          match parseInlines n (s.drop 4) with
          | none => none
          | some q =>
            if startsL closeTh q.2 then
              match parseBlocks n (q.2.drop 5) with
              | none => none
              | some r => some (Block.tableCell true q.1 :: r.1, r.2)
            else none
        else if startsL openTd s then
          match parseInlines n (s.drop 4) with
          | none => none
          | some q =>
            if startsL closeTd q.2 then
              match parseBlocks n (q.2.drop 5) with
              | none => none
              | some r => some (Block.tableCell false q.1 :: r.1, r.2)
            else none
        else if startsL hrTag s then
          match parseBlocks n (s.drop 5) with
          | none => none
          | some r => some (Block.thematicBreak :: r.1, r.2)
        else if startsL openObj s then
          match splitUntil closeObj (s.drop 8) with
          | none => none
          | some q =>
            match parseBlocks n q.2 with
            | none => none
            | some r => some (Block.rawHtmlBlock q.1 :: r.1, r.2)
        else if startsL ('<' :: 'h' :: []) s then
          match s.drop 2 with
          | [] => none
          | d :: r2 =>
            if '1' ≤ d ∧ d ≤ '6' then
              if startsL ('>' :: []) r2 then
                match parseInlines n (r2.drop 1) with
                | none => none
                | some q =>
                  if startsL ('<' :: '/' :: 'h' :: d :: '>' :: []) q.2 then
                    match parseBlocks n (q.2.drop 5) with
                    | none => none
                    | some r => some (Block.heading (d.toNat - 48) q.1 :: r.1, r.2)
                  else none
              else none
            else none
        else none) := rfl

theorem parseBlocks_stop (n : Nat) (s : List Char) (h : isStop s = true) :
    parseBlocks (n + 1) s = some ([], s) := by
  rw [parseBlocks_succ, if_pos (by rw [h])]

theorem parseBlocks_p_step (n : Nat) (z : List Char) :
    parseBlocks (n + 1) (openP ++ z)
      = (match parseInlines n z with
        | none => none
        | some q =>
          if startsL closeP q.2 then
            match parseBlocks n (q.2.drop 4) with
            | none => none
            | some r => some (Block.para q.1 :: r.1, r.2)
          else none) := rfl

theorem parseBlocks_pre_step (n : Nat) (z : List Char) :
    parseBlocks (n + 1) (openPreInfo ++ z)
      = (match splitUntil ('"' :: []) z with
        | none => none
        | some iq =>
          if startsL ('>' :: []) iq.2 then
            match splitUntil closePre (iq.2.drop 1) with
            | none => none
            | some lr =>
              match parseBlocks n lr.2 with
              | none => none
              | some r => some (Block.codeBlock iq.1 lr.1 :: r.1, r.2)
          else none) := rfl

theorem parseBlocks_bq_step (n : Nat) (z : List Char) :
    parseBlocks (n + 1) (openBq ++ z)
      = (match parseBlocks n z with
        | none => none
        | some q =>
          if startsL closeBq q.2 then
            match parseBlocks n (q.2.drop 13) with
            | none => none
            | some r => some (Block.blockQuote q.1 :: r.1, r.2)
          else none) := rfl

theorem parseBlocks_ol_step (n : Nat) (z : List Char) :
    parseBlocks (n + 1) (openOl ++ z)
      = (match splitUntil ('"' :: []) z with
        | none => none
        | some sq =>
          if startsL attrTight sq.2 then
            match sq.2.drop 8 with
            | [] => none
            | t :: r2 =>
              if t = '1' ∨ t = '0' then
                if startsL ('"' :: '>' :: []) r2 then
                  match parseBlocks n (r2.drop 2) with
                  | none => none
                  | some q =>
                    if startsL closeOl q.2 then
                      match parseBlocks n (q.2.drop 5) with
                      | none => none
                      | some r =>
                        some (Block.list true (startOfChars sq.1) (t == '1') q.1 :: r.1, r.2)
                    else none
                else none
              else none
          else none) := rfl

theorem parseBlocks_ul_step (n : Nat) (z : List Char) :
    parseBlocks (n + 1) (openUl ++ z)
      = (match z with
        | [] => none
        | t :: r2 =>
          if t = '1' ∨ t = '0' then
            if startsL ('"' :: '>' :: []) r2 then
              match parseBlocks n (r2.drop 2) with
              | none => none
              | some q =>
                if startsL closeUl q.2 then
                  match parseBlocks n (q.2.drop 5) with
                  | none => none
                  | some r => some (Block.list false none (t == '1') q.1 :: r.1, r.2)
                else none
            else none
          else none) := rfl

theorem parseBlocks_li_step (n : Nat) (z : List Char) :
    parseBlocks (n + 1) (openLi ++ z)
      = (match parseBlocks n z with
        | none => none
        | some q =>
          if startsL closeLi q.2 then
            match parseBlocks n (q.2.drop 5) with
            | none => none
            | some r => some (Block.listItem q.1 :: r.1, r.2)
          else none) := rfl

theorem parseBlocks_table_step (n : Nat) (z : List Char) :
    parseBlocks (n + 1) (openTable ++ z)
      = (match splitUntil ('"' :: []) z with
        | none => none
        | some aq =>
          match alignsOfChars aq.1 with
          | none => none
          | some als =>
            if startsL ('>' :: []) aq.2 then
              match parseBlocks n (aq.2.drop 1) with
              | none => none
              | some q =>
                if startsL closeTable q.2 then
                  match parseBlocks n (q.2.drop 8) with
                  | none => none
                  | some r => some (Block.table als q.1 :: r.1, r.2)
                else none
            else none) := rfl

theorem parseBlocks_tr_step (n : Nat) (z : List Char) :
    parseBlocks (n + 1) (openTr ++ z)
      = (match parseBlocks n z with
        | none => none
        | some q =>
          if startsL closeTr q.2 then
            match parseBlocks n (q.2.drop 5) with
            | none => none
            | some r => some (Block.tableRow q.1 :: r.1, r.2)
          else none) := rfl

theorem parseBlocks_th_step (n : Nat) (z : List Char) :
    parseBlocks (n + 1) (openTh ++ z)
      = (match parseInlines n z with
        | none => none
        | some q =>
          if startsL closeTh q.2 then
            match parseBlocks n (q.2.drop 5) with
            | none => none
            | some r => some (Block.tableCell true q.1 :: r.1, r.2)
          else none) := rfl

theorem parseBlocks_td_step (n : Nat) (z : List Char) :
    parseBlocks (n + 1) (openTd ++ z)
      = (match parseInlines n z with
        | none => none
        | some q =>
          if startsL closeTd q.2 then
            match parseBlocks n (q.2.drop 5) with
            | none => none
            | some r => some (Block.tableCell false q.1 :: r.1, r.2)
          else none) := rfl

theorem parseBlocks_hr_step (n : Nat) (z : List Char) :
    parseBlocks (n + 1) (hrTag ++ z)
      = (match parseBlocks n z with
        | none => none
        | some r => some (Block.thematicBreak :: r.1, r.2)) := rfl

theorem parseBlocks_obj_step (n : Nat) (z : List Char) :
    parseBlocks (n + 1) (openObj ++ z)
      = (match splitUntil closeObj z with
        | none => none
        | some q =>
          match parseBlocks n q.2 with
          | none => none
          | some r => some (Block.rawHtmlBlock q.1 :: r.1, r.2)) := rfl

theorem parseBlocks_h_step (n : Nat) (d : Char) (z : List Char) (hd : d ≠ 'r') :
    parseBlocks (n + 1) ('<' :: 'h' :: d :: '>' :: z)
      = (if '1' ≤ d ∧ d ≤ '6' then
          match parseInlines n z with
          | none => none
          | some q =>
            if startsL ('<' :: '/' :: 'h' :: d :: '>' :: []) q.2 then
              match parseBlocks n (q.2.drop 5) with
              | none => none
              | some r => some (Block.heading (d.toNat - 48) q.1 :: r.1, r.2)
            else none
        else none) := by
  have hhr : startsL hrTag ('<' :: 'h' :: d :: '>' :: z) = false := by
    show (if 'r' = d then startsL ('/' :: '>' :: []) ('>' :: z) else false) = false
    rw [if_neg (fun he => hd he.symm)]
  rw [parseBlocks_succ, hhr]
  rfl

theorem levelChar_facts (l : Nat) (h1 : 1 ≤ l) (h6 : l ≤ 6) :
    (('1' ≤ levelChar l ∧ levelChar l ≤ '6') ∧ (levelChar l).toNat - 48 = l)
      ∧ levelChar l ≠ 'r' := by
  interval_cases l <;> exact ⟨⟨by decide, by decide⟩, by decide⟩

theorem parseBlocks_round (n : Nat) :
    ∀ (bs : List Block) (rest : List Char),
      wfBlocks bs = true → isStop rest = true → (serBlocks bs).length < n →
      parseBlocks n (serBlocks bs ++ rest) = some (bs, rest) := by
  induction n using Nat.strong_induction_on with
  | _ n ih =>
    intro bs rest hwf hstop hlen
    cases n with
    | zero => exact absurd hlen (Nat.not_lt_zero _)
    | succ n =>
      have hIHb : ∀ (bs2 : List Block) (r2 : List Char), wfBlocks bs2 = true →
          isStop r2 = true → (serBlocks bs2).length < n →
          parseBlocks n (serBlocks bs2 ++ r2) = some (bs2, r2) :=
        fun bs2 r2 => ih n (Nat.lt_succ_self n) bs2 r2
      cases bs with
      | nil =>
        simp only [serBlocks, List.nil_append]
        exact parseBlocks_stop n rest hstop
      | cons b more =>
        have hwb : wfBlock b = true := bAnd_left hwf
        have hwm : wfBlocks more = true := bAnd_right hwf
        cases b with
        | para xs =>
          have hwxs : wfInlines xs = true := hwb
          have hlens : (serInlines xs).length < n ∧ (serBlocks more).length < n := by
            have heq : (serBlocks (Block.para xs :: more)).length
                = 3 + ((serInlines xs).length + (4 + (serBlocks more).length)) := by
              simp [serBlocks, serBlock, openP, closeP, List.length_append]
              omega
            rw [heq] at hlen
            omega
          rw [show serBlocks (Block.para xs :: more) ++ rest
              = openP ++ (serInlines xs ++ (closeP ++ (serBlocks more ++ rest))) from by
            simp [serBlocks, serBlock, List.append_assoc]]
          rw [parseBlocks_p_step]
          rw [parseInlines_round n xs (closeP ++ (serBlocks more ++ rest)) hwxs rfl hlens.1]
          show (if startsL closeP (closeP ++ (serBlocks more ++ rest)) then
              match parseBlocks n ((closeP ++ (serBlocks more ++ rest)).drop 4) with
              | none => none
              | some r => some (Block.para xs :: r.1, r.2)
            else none) = some (Block.para xs :: more, rest)
          rw [if_pos (by rw [startsL_self_append])]
          rw [show (closeP ++ (serBlocks more ++ rest)).drop 4 = serBlocks more ++ rest from rfl]
          rw [hIHb more rest hwm hstop hlens.2]
        | codeBlock info lit =>
          have hwi : noPreMatch ('"' :: []) info = true := bAnd_left hwb
          have hwl : noPreMatch closePre lit = true := bAnd_right hwb
          have hlens : (serBlocks more).length < n := by
            have heq : (serBlocks (Block.codeBlock info lit :: more)).length
                = 11 + (info.length + (2 + (lit.length + (6 + (serBlocks more).length)))) := by
              simp [serBlocks, serBlock, openPreInfo, closePre, List.length_append]
              omega
            rw [heq] at hlen
            omega
          rw [show serBlocks (Block.codeBlock info lit :: more) ++ rest
              = openPreInfo ++ (info ++ (('"' :: [])
                ++ ('>' :: (lit ++ (closePre ++ (serBlocks more ++ rest)))))) from by
            simp [serBlocks, serBlock, List.append_assoc]]
          rw [parseBlocks_pre_step]
          rw [splitUntil_round ('"' :: []) info
            ('>' :: (lit ++ (closePre ++ (serBlocks more ++ rest)))) (by decide) hwi]
          have hgt : startsL ('>' :: [])
              ('>' :: (lit ++ (closePre ++ (serBlocks more ++ rest)))) = true := rfl
          show (if startsL ('>' :: []) ('>' :: (lit ++ (closePre ++ (serBlocks more ++ rest)))) then
              match splitUntil closePre
                  (('>' :: (lit ++ (closePre ++ (serBlocks more ++ rest)))).drop 1) with
              | none => none
              | some lr =>
                match parseBlocks n lr.2 with
                | none => none
                | some r => some (Block.codeBlock info lr.1 :: r.1, r.2)
            else none) = some (Block.codeBlock info lit :: more, rest)
          rw [if_pos (by rw [hgt])]
          rw [show ('>' :: (lit ++ (closePre ++ (serBlocks more ++ rest)))).drop 1
              = lit ++ (closePre ++ (serBlocks more ++ rest)) from rfl]
          rw [splitUntil_round closePre lit (serBlocks more ++ rest) (by decide) hwl]
          show (match parseBlocks n (serBlocks more ++ rest) with
            | none => none
            | some r => some (Block.codeBlock info lit :: r.1, r.2))
            = some (Block.codeBlock info lit :: more, rest)
          rw [hIHb more rest hwm hstop hlens]
        | heading l xs =>
          have h1 : 1 ≤ l := by
            have := bAnd_left (bAnd_left hwb)
            simpa using this
          have h6 : l ≤ 6 := by
            have := bAnd_right (bAnd_left hwb)
            simpa using this
          have hwxs : wfInlines xs = true := bAnd_right hwb
          have hd := levelChar_facts l h1 h6
          have hlens : (serInlines xs).length < n ∧ (serBlocks more).length < n := by
            have heq : (serBlocks (Block.heading l xs :: more)).length
                = 4 + ((serInlines xs).length + (5 + (serBlocks more).length)) := by
              simp [serBlocks, serBlock, List.length_append]
              omega
            rw [heq] at hlen
            omega
          rw [show serBlocks (Block.heading l xs :: more) ++ rest
              = '<' :: 'h' :: levelChar l :: '>' :: (serInlines xs
                ++ (('<' :: '/' :: 'h' :: levelChar l :: '>' :: [])
                  ++ (serBlocks more ++ rest))) from by
            simp [serBlocks, serBlock, List.append_assoc]]
          rw [parseBlocks_h_step n (levelChar l) _ hd.2, if_pos hd.1.1]
          rw [parseInlines_round n xs
            (('<' :: '/' :: 'h' :: levelChar l :: '>' :: []) ++ (serBlocks more ++ rest))
            hwxs rfl hlens.1]
          show (if startsL ('<' :: '/' :: 'h' :: levelChar l :: '>' :: [])
              (('<' :: '/' :: 'h' :: levelChar l :: '>' :: []) ++ (serBlocks more ++ rest)) then
              match parseBlocks n ((('<' :: '/' :: 'h' :: levelChar l :: '>' :: [])
                  ++ (serBlocks more ++ rest)).drop 5) with
              | none => none
              | some r => some (Block.heading ((levelChar l).toNat - 48) xs :: r.1, r.2)
            else none) = some (Block.heading l xs :: more, rest)
          rw [if_pos (by rw [startsL_self_append])]
          rw [show (('<' :: '/' :: 'h' :: levelChar l :: '>' :: [])
              ++ (serBlocks more ++ rest)).drop 5 = serBlocks more ++ rest from rfl]
          rw [hIHb more rest hwm hstop hlens.2, hd.1.2]
        | blockQuote children =>
          have hwc : wfBlocks children = true := hwb
          have hlens : (serBlocks children).length < n ∧ (serBlocks more).length < n := by
            have heq : (serBlocks (Block.blockQuote children :: more)).length
                = 12 + ((serBlocks children).length + (13 + (serBlocks more).length)) := by
              simp [serBlocks, serBlock, openBq, closeBq, List.length_append]
              omega
            rw [heq] at hlen
            omega
          rw [show serBlocks (Block.blockQuote children :: more) ++ rest
              = openBq ++ (serBlocks children ++ (closeBq ++ (serBlocks more ++ rest))) from by
            simp [serBlocks, serBlock, List.append_assoc]]
          rw [parseBlocks_bq_step]
          rw [hIHb children (closeBq ++ (serBlocks more ++ rest)) hwc rfl hlens.1]
          show (if startsL closeBq (closeBq ++ (serBlocks more ++ rest)) then
              match parseBlocks n ((closeBq ++ (serBlocks more ++ rest)).drop 13) with
              | none => none
              | some r => some (Block.blockQuote children :: r.1, r.2)
            else none) = some (Block.blockQuote children :: more, rest)
          rw [if_pos (by rw [startsL_self_append])]
          rw [show (closeBq ++ (serBlocks more ++ rest)).drop 13
              = serBlocks more ++ rest from rfl]
          rw [hIHb more rest hwm hstop hlens.2]
        | list ord st tight children =>
          cases ord with
          | true =>
            have hwb2 : ((true || st.isNone) && wfBlocks children) = true := hwb
            have hwc : wfBlocks children = true := bAnd_right hwb2
            have hq : noPreMatch ('"' :: []) (startChars st) = true := startChars_noPre st
            have hlens : (serBlocks children).length < n ∧ (serBlocks more).length < n := by
              have heq : (serBlocks (Block.list true st tight children :: more)).length
                  = 11 + ((startChars st).length + (1 + (8 + (3
                      + ((serBlocks children).length + (5 + (serBlocks more).length)))))) := by
                simp [serBlocks, serBlock, openOl, attrTight, closeOl, List.length_append]
                omega
              rw [heq] at hlen
              omega
            rw [show serBlocks (Block.list true st tight children :: more) ++ rest
                = openOl ++ (startChars st ++ (('"' :: []) ++ (attrTight
                    ++ (tightChar tight :: ('"' :: '>' :: (serBlocks children
                      ++ (closeOl ++ (serBlocks more ++ rest)))))))) from by
              simp [serBlocks, serBlock, List.append_assoc]]
            rw [parseBlocks_ol_step]
            rw [splitUntil_round ('"' :: []) (startChars st)
              (attrTight ++ (tightChar tight :: ('"' :: '>' :: (serBlocks children
                ++ (closeOl ++ (serBlocks more ++ rest)))))) (by decide) hq]
            show (if startsL attrTight (attrTight ++ (tightChar tight :: ('"' :: '>'
                  :: (serBlocks children ++ (closeOl ++ (serBlocks more ++ rest)))))) then
                match (attrTight ++ (tightChar tight :: ('"' :: '>' :: (serBlocks children
                    ++ (closeOl ++ (serBlocks more ++ rest)))))).drop 8 with
                | [] => none
                | t :: r2 =>
                  if t = '1' ∨ t = '0' then
                    if startsL ('"' :: '>' :: []) r2 then
                      match parseBlocks n (r2.drop 2) with
                      | none => none
                      | some q =>
                        if startsL closeOl q.2 then
                          match parseBlocks n (q.2.drop 5) with
                          | none => none
                          | some r =>
                            some (Block.list true (startOfChars (startChars st)) (t == '1')
                              q.1 :: r.1, r.2)
                        else none
                    else none
                  else none
              else none) = some (Block.list true st tight children :: more, rest)
            rw [if_pos (by rw [startsL_self_append])]
            show (if tightChar tight = '1' ∨ tightChar tight = '0' then
                if startsL ('"' :: '>' :: []) ('"' :: '>' :: (serBlocks children
                    ++ (closeOl ++ (serBlocks more ++ rest)))) then
                  match parseBlocks n (('"' :: '>' :: (serBlocks children
                      ++ (closeOl ++ (serBlocks more ++ rest)))).drop 2) with
                  | none => none
                  | some q =>
                    if startsL closeOl q.2 then
                      match parseBlocks n (q.2.drop 5) with
                      | none => none
                      | some r =>
                        some (Block.list true (startOfChars (startChars st))
                          (tightChar tight == '1') q.1 :: r.1, r.2)
                    else none
                else none
              else none) = some (Block.list true st tight children :: more, rest)
            rw [if_pos (tightChar_or tight)]
            rw [if_pos (show startsL ('"' :: '>' :: []) ('"' :: '>' :: (serBlocks children
              ++ (closeOl ++ (serBlocks more ++ rest)))) = true from rfl)]
            rw [show (('"' :: '>' :: (serBlocks children
                ++ (closeOl ++ (serBlocks more ++ rest)))).drop 2)
                = serBlocks children ++ (closeOl ++ (serBlocks more ++ rest)) from rfl]
            rw [hIHb children (closeOl ++ (serBlocks more ++ rest)) hwc rfl hlens.1]
            show (if startsL closeOl (closeOl ++ (serBlocks more ++ rest)) then
                match parseBlocks n ((closeOl ++ (serBlocks more ++ rest)).drop 5) with
                | none => none
                | some r =>
                  some (Block.list true (startOfChars (startChars st))
                    (tightChar tight == '1') children :: r.1, r.2)
              else none) = some (Block.list true st tight children :: more, rest)
            rw [if_pos (by rw [startsL_self_append])]
            rw [show (closeOl ++ (serBlocks more ++ rest)).drop 5
                = serBlocks more ++ rest from rfl]
            rw [hIHb more rest hwm hstop hlens.2]
            rw [startOfChars_startChars st, tightChar_eq tight]
          | false =>
            have hwb2 : ((false || st.isNone) && wfBlocks children) = true := hwb
            have h0 := bAnd_left hwb2
            have hwc : wfBlocks children = true := bAnd_right hwb2
            have hst : st = none := by
              cases st with
              | none => rfl
              | some k => simp [Option.isNone] at h0
            subst hst
            have hlens : (serBlocks children).length < n ∧ (serBlocks more).length < n := by
              have heq : (serBlocks (Block.list false none tight children :: more)).length
                  = 11 + (3 + ((serBlocks children).length + (5 + (serBlocks more).length))) := by
                simp [serBlocks, serBlock, openUl, closeUl, List.length_append]
                omega
              rw [heq] at hlen
              omega
            rw [show serBlocks (Block.list false none tight children :: more) ++ rest
                = openUl ++ (tightChar tight :: ('"' :: '>' :: (serBlocks children
                    ++ (closeUl ++ (serBlocks more ++ rest))))) from by
              simp [serBlocks, serBlock, List.append_assoc]]
            rw [parseBlocks_ul_step]
            show (if tightChar tight = '1' ∨ tightChar tight = '0' then
                if startsL ('"' :: '>' :: []) ('"' :: '>' :: (serBlocks children
                    ++ (closeUl ++ (serBlocks more ++ rest)))) then
                  match parseBlocks n (('"' :: '>' :: (serBlocks children
                      ++ (closeUl ++ (serBlocks more ++ rest)))).drop 2) with
                  | none => none
                  | some q =>
                    if startsL closeUl q.2 then
                      match parseBlocks n (q.2.drop 5) with
                      | none => none
                      | some r =>
                        some (Block.list false none (tightChar tight == '1') q.1 :: r.1, r.2)
                    else none
                else none
              else none) = some (Block.list false none tight children :: more, rest)
            rw [if_pos (tightChar_or tight)]
            rw [if_pos (show startsL ('"' :: '>' :: []) ('"' :: '>' :: (serBlocks children
              ++ (closeUl ++ (serBlocks more ++ rest)))) = true from rfl)]
            rw [show (('"' :: '>' :: (serBlocks children
                ++ (closeUl ++ (serBlocks more ++ rest)))).drop 2)
                = serBlocks children ++ (closeUl ++ (serBlocks more ++ rest)) from rfl]
            rw [hIHb children (closeUl ++ (serBlocks more ++ rest)) hwc rfl hlens.1]
            show (if startsL closeUl (closeUl ++ (serBlocks more ++ rest)) then
                match parseBlocks n ((closeUl ++ (serBlocks more ++ rest)).drop 5) with
                | none => none
                | some r =>
                  some (Block.list false none (tightChar tight == '1') children :: r.1, r.2)
              else none) = some (Block.list false none tight children :: more, rest)
            rw [if_pos (by rw [startsL_self_append])]
            rw [show (closeUl ++ (serBlocks more ++ rest)).drop 5
                = serBlocks more ++ rest from rfl]
            rw [hIHb more rest hwm hstop hlens.2]
            rw [tightChar_eq tight]
        | listItem children =>
          have hwc : wfBlocks children = true := hwb
          have hlens : (serBlocks children).length < n ∧ (serBlocks more).length < n := by
            have heq : (serBlocks (Block.listItem children :: more)).length
                = 4 + ((serBlocks children).length + (5 + (serBlocks more).length)) := by
              simp [serBlocks, serBlock, openLi, closeLi, List.length_append]
              omega
            rw [heq] at hlen
            omega
          rw [show serBlocks (Block.listItem children :: more) ++ rest
              = openLi ++ (serBlocks children ++ (closeLi ++ (serBlocks more ++ rest))) from by
            simp [serBlocks, serBlock, List.append_assoc]]
          rw [parseBlocks_li_step]
          rw [hIHb children (closeLi ++ (serBlocks more ++ rest)) hwc rfl hlens.1]
          show (if startsL closeLi (closeLi ++ (serBlocks more ++ rest)) then
              match parseBlocks n ((closeLi ++ (serBlocks more ++ rest)).drop 5) with
              | none => none
              | some r => some (Block.listItem children :: r.1, r.2)
            else none) = some (Block.listItem children :: more, rest)
          rw [if_pos (by rw [startsL_self_append])]
          rw [show (closeLi ++ (serBlocks more ++ rest)).drop 5
              = serBlocks more ++ rest from rfl]
          rw [hIHb more rest hwm hstop hlens.2]
        | table als children =>
          have hwc : wfBlocks children = true := hwb
          have hlens : (serBlocks children).length < n ∧ (serBlocks more).length < n := by
            have heq : (serBlocks (Block.table als children :: more)).length
                = 14 + ((als.map alignChar).length + (2
                    + ((serBlocks children).length + (8 + (serBlocks more).length)))) := by
              simp [serBlocks, serBlock, openTable, closeTable, List.length_append]
              omega
            rw [heq] at hlen
            omega
          rw [show serBlocks (Block.table als children :: more) ++ rest
              = openTable ++ (als.map alignChar ++ (('"' :: []) ++ ('>' :: (serBlocks children
                  ++ (closeTable ++ (serBlocks more ++ rest)))))) from by
            simp [serBlocks, serBlock, List.append_assoc]]
          rw [parseBlocks_table_step]
          rw [splitUntil_round ('"' :: []) (als.map alignChar)
            ('>' :: (serBlocks children ++ (closeTable ++ (serBlocks more ++ rest))))
            (by decide) (aligns_noPre als)]
          show (match alignsOfChars (als.map alignChar) with
            | none => none
            | some als2 =>
              if startsL ('>' :: []) ('>' :: (serBlocks children
                  ++ (closeTable ++ (serBlocks more ++ rest)))) then
                match parseBlocks n (('>' :: (serBlocks children
                    ++ (closeTable ++ (serBlocks more ++ rest)))).drop 1) with
                | none => none
                | some q =>
                  if startsL closeTable q.2 then
                    match parseBlocks n (q.2.drop 8) with
                    | none => none
                    | some r => some (Block.table als2 q.1 :: r.1, r.2)
                  else none
              else none) = some (Block.table als children :: more, rest)
          rw [alignsOfChars_round als]
          show (if startsL ('>' :: []) ('>' :: (serBlocks children
              ++ (closeTable ++ (serBlocks more ++ rest)))) then
              match parseBlocks n (('>' :: (serBlocks children
                  ++ (closeTable ++ (serBlocks more ++ rest)))).drop 1) with
              | none => none
              | some q =>
                if startsL closeTable q.2 then
                  match parseBlocks n (q.2.drop 8) with
                  | none => none
                  | some r => some (Block.table als q.1 :: r.1, r.2)
                else none
            else none) = some (Block.table als children :: more, rest)
          rw [if_pos (show startsL ('>' :: []) ('>' :: (serBlocks children
            ++ (closeTable ++ (serBlocks more ++ rest)))) = true from rfl)]
          rw [show (('>' :: (serBlocks children
              ++ (closeTable ++ (serBlocks more ++ rest)))).drop 1)
              = serBlocks children ++ (closeTable ++ (serBlocks more ++ rest)) from rfl]
          rw [hIHb children (closeTable ++ (serBlocks more ++ rest)) hwc rfl hlens.1]
          show (if startsL closeTable (closeTable ++ (serBlocks more ++ rest)) then
              match parseBlocks n ((closeTable ++ (serBlocks more ++ rest)).drop 8) with
              | none => none
              | some r => some (Block.table als children :: r.1, r.2)
            else none) = some (Block.table als children :: more, rest)
          rw [if_pos (by rw [startsL_self_append])]
          rw [show (closeTable ++ (serBlocks more ++ rest)).drop 8
              = serBlocks more ++ rest from rfl]
          rw [hIHb more rest hwm hstop hlens.2]
        | tableRow children =>
          have hwc : wfBlocks children = true := hwb
          have hlens : (serBlocks children).length < n ∧ (serBlocks more).length < n := by
            have heq : (serBlocks (Block.tableRow children :: more)).length
                = 4 + ((serBlocks children).length + (5 + (serBlocks more).length)) := by
              simp [serBlocks, serBlock, openTr, closeTr, List.length_append]
              omega
            rw [heq] at hlen
            omega
          rw [show serBlocks (Block.tableRow children :: more) ++ rest
              = openTr ++ (serBlocks children ++ (closeTr ++ (serBlocks more ++ rest))) from by
            simp [serBlocks, serBlock, List.append_assoc]]
          rw [parseBlocks_tr_step]
          rw [hIHb children (closeTr ++ (serBlocks more ++ rest)) hwc rfl hlens.1]
          show (if startsL closeTr (closeTr ++ (serBlocks more ++ rest)) then
              match parseBlocks n ((closeTr ++ (serBlocks more ++ rest)).drop 5) with
              | none => none
              | some r => some (Block.tableRow children :: r.1, r.2)
            else none) = some (Block.tableRow children :: more, rest)
          rw [if_pos (by rw [startsL_self_append])]
          rw [show (closeTr ++ (serBlocks more ++ rest)).drop 5
              = serBlocks more ++ rest from rfl]
          rw [hIHb more rest hwm hstop hlens.2]
        | tableCell hdr xs =>
          have hwxs : wfInlines xs = true := hwb
          cases hdr with
          | true =>
            have hlens : (serInlines xs).length < n ∧ (serBlocks more).length < n := by
              have heq : (serBlocks (Block.tableCell true xs :: more)).length
                  = 4 + ((serInlines xs).length + (5 + (serBlocks more).length)) := by
                simp [serBlocks, serBlock, openTh, closeTh, List.length_append]
                omega
              rw [heq] at hlen
              omega
            rw [show serBlocks (Block.tableCell true xs :: more) ++ rest
                = openTh ++ (serInlines xs ++ (closeTh ++ (serBlocks more ++ rest))) from by
              simp [serBlocks, serBlock, List.append_assoc]]
            rw [parseBlocks_th_step]
            rw [parseInlines_round n xs (closeTh ++ (serBlocks more ++ rest)) hwxs rfl hlens.1]
            show (if startsL closeTh (closeTh ++ (serBlocks more ++ rest)) then
                match parseBlocks n ((closeTh ++ (serBlocks more ++ rest)).drop 5) with
                | none => none
                | some r => some (Block.tableCell true xs :: r.1, r.2)
              else none) = some (Block.tableCell true xs :: more, rest)
            rw [if_pos (by rw [startsL_self_append])]
            rw [show (closeTh ++ (serBlocks more ++ rest)).drop 5
                = serBlocks more ++ rest from rfl]
            rw [hIHb more rest hwm hstop hlens.2]
          | false =>
            have hlens : (serInlines xs).length < n ∧ (serBlocks more).length < n := by
              have heq : (serBlocks (Block.tableCell false xs :: more)).length
                  = 4 + ((serInlines xs).length + (5 + (serBlocks more).length)) := by
                simp [serBlocks, serBlock, openTd, closeTd, List.length_append]
                omega
              rw [heq] at hlen
              omega
            rw [show serBlocks (Block.tableCell false xs :: more) ++ rest
                = openTd ++ (serInlines xs ++ (closeTd ++ (serBlocks more ++ rest))) from by
              simp [serBlocks, serBlock, List.append_assoc]]
            rw [parseBlocks_td_step]
            rw [parseInlines_round n xs (closeTd ++ (serBlocks more ++ rest)) hwxs rfl hlens.1]
            show (if startsL closeTd (closeTd ++ (serBlocks more ++ rest)) then
                match parseBlocks n ((closeTd ++ (serBlocks more ++ rest)).drop 5) with
                | none => none
                | some r => some (Block.tableCell false xs :: r.1, r.2)
              else none) = some (Block.tableCell false xs :: more, rest)
            rw [if_pos (by rw [startsL_self_append])]
            rw [show (closeTd ++ (serBlocks more ++ rest)).drop 5
                = serBlocks more ++ rest from rfl]
            rw [hIHb more rest hwm hstop hlens.2]
        | thematicBreak =>
          have hlens : (serBlocks more).length < n := by
            have heq : (serBlocks (Block.thematicBreak :: more)).length
                = 5 + (serBlocks more).length := by
              simp [serBlocks, serBlock, hrTag, List.length_append]
              omega
            rw [heq] at hlen
            omega
          rw [show serBlocks (Block.thematicBreak :: more) ++ rest
              = hrTag ++ (serBlocks more ++ rest) from by
            simp [serBlocks, serBlock, List.append_assoc]]
          rw [parseBlocks_hr_step]
          rw [hIHb more rest hwm hstop hlens]
        | rawHtmlBlock l =>
          have hnp : noPreMatch closeObj l = true := hwb
          have hlens : (serBlocks more).length < n := by
            have heq : (serBlocks (Block.rawHtmlBlock l :: more)).length
                = 8 + (l.length + (9 + (serBlocks more).length)) := by
              simp [serBlocks, serBlock, openObj, closeObj, List.length_append]
              omega
            rw [heq] at hlen
            omega
          rw [show serBlocks (Block.rawHtmlBlock l :: more) ++ rest
              = openObj ++ (l ++ (closeObj ++ (serBlocks more ++ rest))) from by
            simp [serBlocks, serBlock, List.append_assoc]]
          rw [parseBlocks_obj_step]
          rw [splitUntil_round closeObj l (serBlocks more ++ rest) (by decide) hnp]
          show (match parseBlocks n (serBlocks more ++ rest) with
            | none => none
            | some r => some (Block.rawHtmlBlock l :: r.1, r.2))
            = some (Block.rawHtmlBlock l :: more, rest)
          rw [hIHb more rest hwm hstop hlens]

theorem docFromXml_serDoc (bs : List Block) (hwf : wfBlocks bs = true) :
    docFromXml (serDoc true bs) true = some bs := by
  have harr : serDoc true bs = openDoc ++ (serBlocks bs ++ closeDoc) := by
    show openDoc ++ serBlocks bs ++ closeDoc = openDoc ++ (serBlocks bs ++ closeDoc)
    rw [List.append_assoc]
  rw [harr]
  show (if startsL openDoc (openDoc ++ (serBlocks bs ++ closeDoc)) then
      match parseBlocks ((openDoc ++ (serBlocks bs ++ closeDoc)).length + 1)
          ((openDoc ++ (serBlocks bs ++ closeDoc)).drop 5) with
      | none => none
      | some p => if p.2 = closeDoc then some p.1 else none
    else none) = some bs
  rw [if_pos (by rw [startsL_self_append])]
  rw [show (openDoc ++ (serBlocks bs ++ closeDoc)).drop 5 = serBlocks bs ++ closeDoc from rfl]
  have hlen : (serBlocks bs).length < (openDoc ++ (serBlocks bs ++ closeDoc)).length + 1 := by
    simp [List.length_append]
    omega
  rw [parseBlocks_round ((openDoc ++ (serBlocks bs ++ closeDoc)).length + 1) bs closeDoc
    hwf rfl hlen]
  show (if closeDoc = closeDoc then some bs else none) = some bs
  rw [if_pos rfl]

/-- Claim C1 (spec-modelled): for every CommonMark input in the supported
subset — inputs whose parse is well formed and which are fixed points of
parse-then-render, i.e. inputs already in the normal form that CommonMark
parsing itself induces — decoding the encoding (with root wrapping and
unwrapping) returns the input; in general it returns the input's
CommonMark normalization `cmarkNormalize`. -/
theorem c1_round_trip (md : String)
    (hwf : wfBlocks (parseCmark md.data) = true) :
    cmark_from_xml (xml_from_cmark md true) true = some (cmarkNormalize md)
    ∧ (cmarkNormalize md = md →
        cmark_from_xml (xml_from_cmark md true) true = some md) := by
  have h1 : cmark_from_xml (xml_from_cmark md true) true = some (cmarkNormalize md) := by
    show (docFromXml (String.mk (serDoc true (parseCmark md.data))).data true).map
        (fun bs => String.mk (renderBlocks bs)) = some (cmarkNormalize md)
    rw [show (String.mk (serDoc true (parseCmark md.data))).data
        = serDoc true (parseCmark md.data) from rfl]
    rw [docFromXml_serDoc (parseCmark md.data) hwf]
    rfl
  refine ⟨h1, fun hn => ?_⟩
  rw [hn] at h1
  exact h1

set_option maxRecDepth 100000 in
/-- Claim C1 (witness): a document exercising a multi-line paragraph with a
soft and a hard break, heading, strong/emphasis, a link with title, a code
span, bullet and ordered lists, a block quote, a pipe table with
alignments, strikethrough, an image, a fenced code block and a raw HTML
block round-trips exactly. -/
theorem c1_witness :
    cmark_from_xml (xml_from_cmark "# T\n\nA **b** *c*,\n[d](u \"t\") `x<y` ~~s~~ ![a](i \"p\")  \nz.\n\n- e\n- f\n\n1. g\n\n> h *i*\n\n| j | k |\n| :-- | --: |\n| l | m |\n\n```r\nw\n```\n\n<div>n</div>" true) true
      = some "# T\n\nA **b** *c*,\n[d](u \"t\") `x<y` ~~s~~ ![a](i \"p\")  \nz.\n\n- e\n- f\n\n1. g\n\n> h *i*\n\n| j | k |\n| :-- | --: |\n| l | m |\n\n```r\nw\n```\n\n<div>n</div>" :=
  (c1_round_trip "# T\n\nA **b** *c*,\n[d](u \"t\") `x<y` ~~s~~ ![a](i \"p\")  \nz.\n\n- e\n- f\n\n1. g\n\n> h *i*\n\n| j | k |\n| :-- | --: |\n| l | m |\n\n```r\nw\n```\n\n<div>n</div>" (by decide)).2
    (by decide)

end CmarkTranslate
